import Mathlib

/-!
Verification of the maintenance-scheduler core of this repository.

The Python sources (`challenge-3-new/services/scheduler_agent.py`,
`challenge-3-new/services/cosmos_db_service.py`,
`challenge-3-new/utils/json_helpers.py`,
`challenge-3-new/utils/datetime_helpers.py`, and their near-identical
merged counterpart `challenge-3/maintenance_scheduler.py`) are shallowly
embedded below.

Modelling conventions:
* Python `datetime` values are naive instants at one-second granularity,
  embedded as `ℤ` (seconds since the epoch); `timedelta.days` is floor
  division by 86400 (`Int.fdiv`), matching Python's floored timedeltas.
  Timezone-aware datetimes (needed only for ISO-8601 parsing) carry an
  optional UTC offset in seconds.
* Python `float` arithmetic is idealised as exact rational arithmetic
  (`ℚ`); `str.format` fixed-point rendering is modelled with its
  round-half-even rule on the idealised value.
* Python exceptions are modelled with `Except`: every `/` whose
  denominator is data-dependent goes through `pyDiv`, which returns
  `PyErr.zeroDivisionError` exactly when Python would raise
  `ZeroDivisionError`.
* Python `str` values manipulated by index arithmetic (the JSON
  extractor) are embedded as `List Char` (Python strings are sequences
  of code points); rendered context text stays `String`.
-/

deriving instance DecidableEq for Except

set_option maxRecDepth 8000

namespace FactoryHack

/-- Errors raised by the embedded Python code paths. -/
inductive PyErr where
  | zeroDivisionError
  | valueError
  | keyError
  | typeError
  | attributeError
  | notFound
deriving DecidableEq, Repr

/-- Python `a / b` on numbers: raises `ZeroDivisionError` when `b = 0`. -/
def pyDiv (a b : ℚ) : Except PyErr ℚ :=
  if b = 0 then .error .zeroDivisionError else .ok (a / b)

/-- Decimal digits of a natural number, most significant first (`str(n)`). -/
def natDigits (n : ℕ) : List Char :=
  if h : n < 10 then [Char.ofNat (48 + n)]
  else natDigits (n / 10) ++ [Char.ofNat (48 + n % 10)]
decreasing_by exact Nat.div_lt_self (by omega) (by omega)

/-- Python `str` of an integer. -/
def intStr (i : ℤ) : String :=
  if i < 0 then "-" ++ String.mk (natDigits i.natAbs) else String.mk (natDigits i.natAbs)

/-- Python `str` of a natural (used for `len(...)` interpolations). -/
def natStr (n : ℕ) : String := String.mk (natDigits n)

/-- Round a rational to the nearest integer, ties to even — the rounding
used by Python `format(x, '.Nf')`. -/
def roundHalfEven (x : ℚ) : ℤ :=
  let f := ⌊x⌋
  let r := x - f
  if r < 1/2 then f
  else if 1/2 < r then f + 1
  else if f % 2 = 0 then f else f + 1

/-- Left-pad a digit string with zeros to a given width. -/
def padDigits (width : ℕ) (m : ℕ) : List Char :=
  let ds := natDigits m
  List.replicate (width - ds.length) '0' ++ ds

/-- Python `format(x, '.{prec}f')` on the idealised rational value. -/
def fmtFixed (prec : ℕ) (q : ℚ) : String :=
  let n := roundHalfEven (q * (10 : ℚ) ^ prec)
  let sign := if n < 0 then "-" else ""
  let a := n.natAbs
  if prec = 0 then sign ++ String.mk (natDigits a)
  else sign ++ String.mk (natDigits (a / 10 ^ prec)) ++ "." ++
       String.mk (padDigits prec (a % 10 ^ prec))

/-- Decimal expansion of a fractional part `r ∈ [0,1)`, up to `fuel` digits
(Python float repr of the idealised value; floats are dyadic so the
expansion terminates well inside the fuel for representable values). -/
def fracDigits : ℕ → ℚ → List Char
  | 0, _ => []
  | fuel + 1, r =>
    if r = 0 then []
    else
      let d := ⌊r * 10⌋
      Char.ofNat (48 + d.toNat) :: fracDigits fuel (r * 10 - d)

/-- Python `str(x)` for a float, on the idealised rational value. -/
def pyFloatStr (q : ℚ) : String :=
  let sign := if q < 0 then "-" else ""
  let a := |q|
  let ip := ⌊a⌋
  let ds := fracDigits 17 (a - ip)
  sign ++ String.mk (natDigits ip.toNat) ++ "." ++
    (if ds.isEmpty then "0" else String.mk ds)

/-- Civil date (year, month, day) from a day count since 1970-01-01
(Howard Hinnant's algorithm, as used by C and Python date libraries). -/
def civilFromDays (z : ℤ) : ℤ × ℤ × ℤ :=
  let z' := z + 719468
  let era := z'.fdiv 146097
  let doe := z' - era * 146097
  let yoe := (doe - doe.fdiv 1460 + doe.fdiv 36524 - doe.fdiv 146096).fdiv 365
  let y := yoe + era * 400
  let doy := doe - (365 * yoe + yoe.fdiv 4 - yoe.fdiv 100)
  let mp := (5 * doy + 2).fdiv 153
  let d := doy - (153 * mp + 2).fdiv 5 + 1
  let m := if mp < 10 then mp + 3 else mp - 9
  (if m ≤ 2 then y + 1 else y, m, d)

/-- Day count since 1970-01-01 of a civil date (inverse of `civilFromDays`). -/
def daysFromCivil (y m d : ℤ) : ℤ :=
  let y' := if m ≤ 2 then y - 1 else y
  let era := y'.fdiv 400
  let yoe := y' - era * 400
  let mp := if 2 < m then m - 3 else m + 9
  let doy := (153 * mp + 2).fdiv 5 + d - 1
  let doe := yoe * 365 + yoe.fdiv 4 - yoe.fdiv 100 + doy
  era * 146097 + doe - 719468

/-- Zero-padded two-digit rendering (for months, days, hours, minutes). -/
def pad2 (n : ℤ) : String :=
  if n < 10 then "0" ++ intStr n else intStr n

/-- `strftime('%Y')`: the year zero-padded to four digits. -/
def pad4 (n : ℤ) : String :=
  if n < 0 then "-" ++ String.mk (padDigits 4 n.natAbs)
  else String.mk (padDigits 4 n.toNat)

/-- `strftime('%Y-%m-%d')` of an instant (seconds since the epoch). -/
def fmtYmd (t : ℤ) : String :=
  let c := civilFromDays (t.fdiv 86400)
  pad4 c.1 ++ "-" ++ pad2 c.2.1 ++ "-" ++ pad2 c.2.2

/-- `strftime('%H:%M')` of an instant. -/
def fmtHM (t : ℤ) : String :=
  let sod := t.fmod 86400
  pad2 (sod.fdiv 3600) ++ ":" ++ pad2 ((sod.fmod 3600).fdiv 60)

/-- `strftime('%Y-%m-%d %H:%M')` of an instant. -/
def fmtYmdHM (t : ℤ) : String := fmtYmd t ++ " " ++ fmtHM t

/-- Seconds since the epoch of a date given at civil granularity (helper
for writing concrete test instants). -/
def civilSecs (y m d hh mi : ℤ) : ℤ :=
  daysFromCivil y m d * 86400 + hh * 3600 + mi * 60

/-- `models/work_order.py`: `RequiredPart`. -/
structure RequiredPart where
  partNumber : String
  partName : String
  quantity : ℤ
  isAvailable : Bool
deriving DecidableEq, Repr

/-- `models/work_order.py`: `WorkOrder`. -/
structure WorkOrder where
  id : String
  machineId : String
  faultType : String
  priority : String
  assignedTechnician : String
  requiredParts : List RequiredPart
  estimatedDuration : ℤ
  createdAt : Option ℤ
  status : String
deriving DecidableEq, Repr

/-- `models/maintenance.py`: `MaintenanceHistory` (instants in seconds). -/
structure MaintenanceHistory where
  id : String
  machineId : String
  faultType : String
  occurrenceDate : Option ℤ
  resolutionDate : Option ℤ
  downtime : ℤ
  cost : ℚ
deriving DecidableEq, Repr

/-- `models/maintenance.py`: `MaintenanceWindow`. -/
structure MaintenanceWindow where
  id : String
  startTime : Option ℤ
  endTime : Option ℤ
  productionImpact : String
  isAvailable : Bool
deriving DecidableEq, Repr

/-!
## Context assembler (`MaintenanceSchedulerAgent._build_context`)

The source appends lines to one list; the embedding builds the same list
section by section, in the source's append order.  `now` stands for the
value `datetime.utcnow()` produces *inside* the function (the source has
no such parameter — see the C2 theorems).
-/

/-- `[h for h in history if h.fault_type == work_order.fault_type]`. -/
def relevant_history (wo : WorkOrder) (history : List MaintenanceHistory) :
    List MaintenanceHistory :=
  history.filter fun h => h.faultType == wo.faultType

/-- `[h.occurrence_date for h in relevant_history if h.occurrence_date]`. -/
def datedOccurrences (relevant : List MaintenanceHistory) : List ℤ :=
  relevant.filterMap (·.occurrenceDate)

/-- Python `sorted` on instants (ascending; stable, hence any sort). -/
def sortAsc (l : List ℤ) : List ℤ := l.insertionSort (· ≤ ·)

/-- `(dates[i] - dates[i-1]).days for i in range(1, len(dates))`. -/
def dayGaps : List ℤ → List ℤ
  | a :: b :: rest => (b - a).fdiv 86400 :: dayGaps (b :: rest)
  | _ => []

/-- Python `max` over a list (raises `ValueError` on an empty sequence). -/
def listMax : List ℤ → Except PyErr ℤ
  | [] => .error .valueError
  | x :: xs => .ok (xs.foldl max x)

/-- `dates = sorted([h.occurrence_date for h in relevant_history if
h.occurrence_date])`. -/
def code_dates (relevant : List MaintenanceHistory) : List ℤ :=
  sortAsc (datedOccurrences relevant)

/-- `intervals = [(dates[i] - dates[i-1]).days for i in range(1, len(dates))]`. -/
def code_intervals (relevant : List MaintenanceHistory) : List ℤ :=
  dayGaps (code_dates relevant)

/-- The MTBF block: the three statistics lines appended inside
`if len(relevant_history) >= 2:` / `if len(dates) >= 2:`; empty when the
guards fail.  The `days_since_last / avg_interval` division raises
`ZeroDivisionError` when the mean gap is zero. -/
def mtbf_lines (relevant : List MaintenanceHistory) (now : ℤ) :
    Except PyErr (List String) :=
  if 2 ≤ relevant.length then
    if 2 ≤ (code_dates relevant).length then
      match pyDiv (((code_intervals relevant).sum : ℤ) : ℚ)
          ((code_intervals relevant).length : ℚ) with
      | .error e => .error e
      | .ok avgInterval =>
        match listMax (datedOccurrences relevant) with
        | .error e => .error e
        | .ok lastOccurrence =>
          match pyDiv ((((now - lastOccurrence).fdiv 86400 : ℤ) : ℚ))
              avgInterval with
          | .error e => .error e
          | .ok frac =>
            .ok ["- Mean Time Between Failures (MTBF): " ++
                   fmtFixed 0 avgInterval ++ " days",
                 "- Days since last occurrence: " ++
                   fmtFixed 0 (((now - lastOccurrence).fdiv 86400 : ℤ) : ℚ),
                 "- Failure cycle progress: " ++ fmtFixed 1 (frac * 100) ++ "%"]
    else .ok []
  else .ok []

/-- The `if relevant_history:` block (similar-fault statistics). -/
def similar_block (wo : WorkOrder) (relevant : List MaintenanceHistory)
    (now : ℤ) : Except PyErr (List String) :=
  if relevant.isEmpty then
    .ok ["**No previous occurrences of " ++ wo.faultType ++ " fault type.**"]
  else
    match pyDiv (((relevant.map (·.downtime)).sum : ℤ) : ℚ)
        (relevant.length : ℚ) with
    | .error e => .error e
    | .ok avgDowntime =>
      match pyDiv ((relevant.map (·.cost)).sum) (relevant.length : ℚ) with
      | .error e => .error e
      | .ok avgCost =>
        match mtbf_lines relevant now with
        | .error e => .error e
        | .ok more =>
          .ok (["**Similar fault type (" ++ wo.faultType ++ "):**",
                "- Occurrences: " ++ natStr relevant.length,
                "- Average downtime: " ++ fmtFixed 0 avgDowntime ++ " minutes",
                "- Average cost: $" ++ fmtFixed 2 avgCost] ++ more)

/-- The `Recent maintenance events` loop over `history[:5]`. -/
def recent_lines (history : List MaintenanceHistory) : List String :=
  (history.take 5).filterMap fun r =>
    r.occurrenceDate.map fun d =>
      "- " ++ fmtYmd d ++ ": " ++ r.faultType ++ " (" ++ intStr r.downtime ++
        "min, $" ++ pyFloatStr r.cost ++ ")"

/-- The `if history:` section of the context. -/
def history_section (wo : WorkOrder) (history : List MaintenanceHistory)
    (now : ℤ) : Except PyErr (List String) :=
  if history.isEmpty then
    .ok ["⚠️  No historical maintenance data available.",
         "Risk assessment will be based on fault type and priority only."]
  else
    match similar_block wo (relevant_history wo history) now with
    | .error e => .error e
    | .ok sb =>
      .ok (["Total maintenance events: " ++ natStr history.length, ""] ++ sb ++
           ["", "**Recent maintenance events (all types):**"] ++
           recent_lines history)

/-- The maintenance-window section (`windows[:10]`, skipping windows with a
missing start or end time). -/
def window_lines (windows : List MaintenanceWindow) : List String :=
  if windows.isEmpty then ["⚠️  No maintenance windows available!"]
  else
    (windows.take 10).flatMap fun w =>
      match w.startTime, w.endTime with
      | some s, some e =>
        ["- **" ++ fmtYmdHM s ++ " to " ++ fmtHM e ++ "** (" ++
           fmtFixed 1 (((e - s : ℤ) : ℚ) / 3600) ++ "h)",
         "  * Production Impact: " ++ w.productionImpact,
         "  * Window ID: " ++ w.id]
      | _, _ => []

/-- The fixed opening lines of the context. -/
def header_lines (wo : WorkOrder) : List String :=
  ["# Predictive Maintenance Analysis Request",
   "",
   "## Work Order Information",
   "- Work Order ID: " ++ wo.id,
   "- Machine ID: " ++ wo.machineId,
   "- Fault Type: " ++ wo.faultType,
   "- Priority: " ++ wo.priority,
   "- Estimated Duration: " ++ intStr wo.estimatedDuration ++ " minutes",
   "",
   "## Historical Maintenance Data"]

/-- The fixed closing lines of the context (instruction block and JSON
skeleton). -/
def footer_lines : List String :=
  ["",
   "## Analysis Required",
   "Please provide a JSON response with:",
   "1. Risk score (0-100): Priority base + MTBF progress + historical impact",
   "2. Failure probability (0.0-1.0)",
   "3. Optimal maintenance window selection",
   "4. Recommended action: IMMEDIATE, URGENT, or SCHEDULED",
   "5. Detailed reasoning",
   "",
   "```json",
   "\x7b",
   "  \"scheduledDate\": \"<ISO datetime>\",",
   "  \"maintenanceWindow\": \x7b",
   "    \"id\": \"<window ID>\",",
   "    \"startTime\": \"<ISO datetime>\",",
   "    \"endTime\": \"<ISO datetime>\",",
   "    \"productionImpact\": \"<Low|Medium|High>\",",
   "    \"isAvailable\": true",
   "  \x7d,",
   "  \"riskScore\": <0-100>,",
   "  \"predictedFailureProbability\": <0.0-1.0>,",
   "  \"recommendedAction\": \"<IMMEDIATE|URGENT|SCHEDULED>\",",
   "  \"reasoning\": \"<detailed explanation>\"",
   "\x7d",
   "```"]

/-- `_build_context`, as the list of lines later joined with newlines. -/
def build_context_lines (wo : WorkOrder) (history : List MaintenanceHistory)
    (windows : List MaintenanceWindow) (now : ℤ) :
    Except PyErr (List String) :=
  match history_section wo history now with
  | .error e => .error e
  | .ok hs =>
    .ok (header_lines wo ++ hs ++
         ["", "## Available Maintenance Windows (Next 14 Days)"] ++
         window_lines windows ++ footer_lines)

/-- `_build_context`: the assembled context text (`"\n".join(lines)`). -/
def build_context (wo : WorkOrder) (history : List MaintenanceHistory)
    (windows : List MaintenanceWindow) (now : ℤ) : Except PyErr String :=
  match build_context_lines wo history windows now with
  | .error e => .error e
  | .ok ls => .ok (String.intercalate "\n" ls)

/-!
## Maintenance-window fallback (`CosmosDbService._generate_mock_windows`
and `get_available_maintenance_windows`)
-/

/-- `dt.replace(hour=h)` (minute, second preserved; the callers only apply
it to midnight instants). -/
def replaceHour (t : ℤ) (h : ℤ) : ℤ :=
  86400 * t.fdiv 86400 + h * 3600 + (t.fmod 86400).emod 3600

/-- `dt.replace(hour=h, minute=m)` (second preserved). -/
def replaceHourMinute (t : ℤ) (h m : ℤ) : ℤ :=
  86400 * t.fdiv 86400 + h * 3600 + m * 60 + (t.fmod 86400).emod 60

/-- `_generate_mock_windows(days_ahead)`; `now` is the `datetime.utcnow()`
read inside the function. -/
def generate_mock_windows (daysAhead : ℕ) (now : ℤ) : List MaintenanceWindow :=
  let startDate := 86400 * now.fdiv 86400 + 86400
  (List.range daysAhead).map fun (i : ℕ) =>
    let currentDate := startDate + 86400 * Int.ofNat i
    { id := "mw-" ++ fmtYmd currentDate ++ "-night",
      startTime := some (replaceHour currentDate 22),
      endTime := some (replaceHourMinute currentDate 23 59 + (6 * 3600 + 60)),
      productionImpact := "Low",
      isAvailable := true }

/-- `get_available_maintenance_windows`: the backend read result is
`none` when the store raised (unreachable) and `some items` otherwise;
the mock generator is used when it raised or returned nothing. -/
def get_available_maintenance_windows
    (backendItems : Option (List MaintenanceWindow)) (daysAhead : ℕ)
    (now : ℤ) : List MaintenanceWindow :=
  match backendItems with
  | none => generate_mock_windows daysAhead now
  | some results =>
    if results.isEmpty then generate_mock_windows daysAhead now else results

/-!
## Conversation transcripts (`_save_thread_history` /
`save_machine_chat_history`)
-/

/-- One `(role, content)` pair of a transcript. -/
structure ChatMsg where
  role : String
  content : String
deriving DecidableEq, Repr

/-- The stored `ChatHistories` document (its JSON payload embedded as the
message list it encodes). -/
structure ChatDoc where
  entityId : String
  entityType : String
  history : List ChatMsg
  purpose : String
deriving DecidableEq, Repr

/-- The `ChatHistories` container, keyed by machine id. -/
def ChatStore := String → Option ChatDoc

/-- `save_machine_chat_history`: `upsert_item` overwrites the document
stored under the machine id. -/
def save_machine_chat_history (store : ChatStore) (machineId : String)
    (history : List ChatMsg) : ChatStore :=
  fun k =>
    if k = machineId then
      some { entityId := machineId, entityType := "machine",
             history := history, purpose := "predictive_maintenance" }
    else store k

/-- `_save_thread_history`: collects at most 10 messages from
`thread.list_messages()` (which yields newest first — hence the
`messages.reverse()` in the source), then saves them. -/
def save_thread_history (store : ChatStore) (machineId : String)
    (threadNewestFirst : List ChatMsg) : ChatStore :=
  save_machine_chat_history store machineId
    ((threadNewestFirst.take 10).reverse)

/-!
## Work-order status update (`CosmosDbService.update_work_order_status`)

The `WorkOrders` container holds one document per (id, status) pair —
status is the partition key.  Documents round-trip through the typed
`WorkOrder` model, so they are embedded as `WorkOrder` values.
-/

/-- `get_work_order`: first document whose `id` matches; raises when
absent. -/
def get_work_order (store : List WorkOrder) (workOrderId : String) :
    Except PyErr WorkOrder :=
  match store.find? (fun w => w.id == workOrderId) with
  | some w => .ok w
  | none => .error .notFound

/-- `delete_item(item=id, partition_key=old_status)`: removes the (unique)
document with that id and partition key. -/
def delete_item (store : List WorkOrder) (workOrderId status : String) :
    List WorkOrder :=
  store.eraseP (fun w => w.id == workOrderId && w.status == status)

/-- `upsert_item`: replaces the document with the same (id, status) key,
or appends it. -/
def upsert_item (store : List WorkOrder) (item : WorkOrder) :
    List WorkOrder :=
  if store.any (fun w => w.id == item.id && w.status == item.status) then
    store.map fun w =>
      if w.id == item.id && w.status == item.status then item else w
  else store ++ [item]

/-- `update_work_order_status`: read, delete under the old partition key,
re-insert the same fields under the new status. -/
def update_work_order_status (store : List WorkOrder)
    (workOrderId status : String) : Except PyErr (List WorkOrder) :=
  match get_work_order store workOrderId with
  | .error e => .error e
  | .ok workOrder =>
    let oldStatus := workOrder.status
    let store₁ := delete_item store workOrderId oldStatus
    .ok (upsert_item store₁ { workOrder with status := status })

/-!
## `utils/datetime_helpers.py`: `parse_datetime`

`datetime.fromisoformat` is modelled on its documented core grammar
`YYYY-MM-DD[(T| )HH:MM[:SS[.ffffff]][±HH:MM]]` (fractional seconds are
accepted and floored; the embedding works at one-second granularity).
-/

/-- A Python `datetime`: seconds since the epoch plus an optional UTC
offset in seconds (`None` for a naive value). -/
structure PyDateTime where
  secs : ℤ
  tz : Option ℤ
deriving DecidableEq, Repr

/-- Days in a month (with leap years). -/
def daysInMonth (y m : ℤ) : ℤ :=
  if m = 2 then
    if y % 4 = 0 ∧ (y % 100 ≠ 0 ∨ y % 400 = 0) then 29 else 28
  else if m = 4 ∨ m = 6 ∨ m = 9 ∨ m = 11 then 30
  else 31

/-- Read exactly `n` decimal digits from the front of a character list. -/
def readNDigits : ℕ → List Char → Option (ℕ × List Char)
  | 0, cs => some (0, cs)
  | n + 1, c :: cs =>
    if c.isDigit then
      match readNDigits n cs with
      | some (v, rest) => some ((c.toNat - 48) * 10 ^ n + v, rest)
      | none => none
    else none
  | _ + 1, [] => none

/-- Parse the optional `±HH:MM` offset suffix (must consume everything). -/
def readTzSuffix : List Char → Option (Option ℤ)
  | [] => some none
  | sign :: cs =>
    if sign = '+' ∨ sign = '-' then
      match readNDigits 2 cs with
      | some (oh, ':' :: cs₁) =>
        match readNDigits 2 cs₁ with
        | some (om, []) =>
          if oh < 24 ∧ om < 60 then
            let mag : ℤ := oh * 3600 + om * 60
            some (some (if sign = '+' then mag else -mag))
          else none
        | _ => none
      | _ => none
    else none

/-- Parse `[:SS[.ffffff]]` then the offset; returns (seconds, offset). -/
def readSecondsAndTz : List Char → Option (ℕ × Option ℤ)
  | ':' :: cs =>
    match readNDigits 2 cs with
    | some (ss, rest) =>
      if ss < 60 then
        match rest with
        | '.' :: cs₁ =>
          let frac := cs₁.takeWhile (·.isDigit)
          if frac.length = 0 ∨ 6 < frac.length then none
          else
            match readTzSuffix (cs₁.dropWhile (·.isDigit)) with
            | some tz => some (ss, tz)
            | none => none
        | _ =>
          match readTzSuffix rest with
          | some tz => some (ss, tz)
          | none => none
      else none
    | none => none
  | cs =>
    match readTzSuffix cs with
    | some tz => some (0, tz)
    | none => none

/-- `datetime.fromisoformat` on the modelled grammar. -/
def fromisoformat (cs : List Char) : Option PyDateTime :=
  match readNDigits 4 cs with
  | some (y, '-' :: cs₁) =>
    match readNDigits 2 cs₁ with
    | some (mo, '-' :: cs₂) =>
      match readNDigits 2 cs₂ with
      | some (dd, rest) =>
        if 1 ≤ mo ∧ mo ≤ 12 ∧ 1 ≤ dd ∧ (dd : ℤ) ≤ daysInMonth y mo then
          let base := daysFromCivil y mo dd * 86400
          match rest with
          | [] => some { secs := base, tz := none }
          | sep :: cs₃ =>
            if sep = 'T' ∨ sep = ' ' then
              match readNDigits 2 cs₃ with
              | some (hh, ':' :: cs₄) =>
                match readNDigits 2 cs₄ with
                | some (mi, cs₅) =>
                  if hh < 24 ∧ mi < 60 then
                    match readSecondsAndTz cs₅ with
                    | some (ss, tz) =>
                      some { secs := base + hh * 3600 + mi * 60 + ss, tz := tz }
                    | none => none
                  else none
                | none => none
              | _ => none
            else none
        else none
      | none => none
    | _ => none
  | _ => none

/-- `dt_str.replace('Z', '+00:00')` (single-character needle, so the
substring replacement is the per-character expansion). -/
def replaceZ (cs : List Char) : List Char :=
  cs.flatMap fun c => if c = 'Z' then ['+', '0', '0', ':', '0', '0'] else [c]

/-- The dynamically typed argument of `parse_datetime`. -/
inductive PyVal where
  | dt (d : PyDateTime)
  | none
  | str (s : List Char)
  | num (n : ℤ)
deriving DecidableEq, Repr

/-- `parse_datetime`: datetime values pass through; falsy values give
`None`; strings are parsed after `Z → +00:00`; any exception inside the
`try` (unparseable string, `.replace` on a non-string) gives `None`. -/
def parse_datetime : PyVal → Option PyDateTime
  | .dt d => some d
  | .none => Option.none
  | .num _ => Option.none
  | .str s => if s.isEmpty then Option.none else fromisoformat (replaceZ s)

/-!
## JSON values, `json.dumps`, `json.loads`

Numbers are decimal-exact: `num m e` denotes `m / 10^e` (`e` fractional
digits), covering Python ints (`e = 0`) and the decimal notation of
floats.  `json.loads` is modelled on the JSON core grammar (no exponent
notation, no `\uXXXX` escapes — neither is produced by the serializer).
-/

mutual

inductive Json where
  | null
  | bool (b : Bool)
  | num (m : ℤ) (e : ℕ)
  | str (s : List Char)
  | arr (items : JArr)
  | obj (fields : JObj)
deriving DecidableEq, Repr

inductive JArr where
  | nil
  | cons (v : Json) (rest : JArr)
deriving DecidableEq, Repr

inductive JObj where
  | nil
  | cons (k : List Char) (v : Json) (rest : JObj)
deriving DecidableEq, Repr

end

/-- Digits of an integer, most significant first (`str(i)`). -/
def intDigits (i : ℤ) : List Char :=
  if i < 0 then '-' :: natDigits i.natAbs else natDigits i.natAbs

/-- `json.dumps` escaping of one string character. -/
def escapeChar (c : Char) : List Char :=
  if c = '"' then ['\\', '"']
  else if c = '\\' then ['\\', '\\']
  else if c = '\n' then ['\\', 'n']
  else if c = '\t' then ['\\', 't']
  else if c = '\r' then ['\\', 'r']
  else [c]

/-- Decimal rendering of `num m e` (`repr` of the float / `str` of the int). -/
def numDumps (m : ℤ) (e : ℕ) : List Char :=
  if e = 0 then intDigits m
  else
    (if m < 0 then ['-'] else []) ++ natDigits (m.natAbs / 10 ^ e) ++
      '.' :: padDigits e (m.natAbs % 10 ^ e)

mutual

/-- `json.dumps` with its default `', '` / `': '` separators. -/
def jsonDumps : Json → List Char
  | .null => ['n', 'u', 'l', 'l']
  | .num m e => numDumps m e
  | .bool true => ['t', 'r', 'u', 'e']
  | .bool false => ['f', 'a', 'l', 's', 'e']
  | .str s => '"' :: s.flatMap escapeChar ++ ['"']
  | .arr items => '[' :: arrDumps items ++ [']']
  | .obj fields => '{' :: objDumps fields ++ ['}']

def arrDumps : JArr → List Char
  | .nil => []
  | .cons v rest =>
    match rest with
    | .nil => jsonDumps v
    | .cons .. => jsonDumps v ++ ',' :: ' ' :: arrDumps rest

def objDumps : JObj → List Char
  | .nil => []
  | .cons k v rest =>
    match rest with
    | .nil => '"' :: k.flatMap escapeChar ++ '"' :: ':' :: ' ' :: jsonDumps v
    | .cons .. =>
      '"' :: k.flatMap escapeChar ++ '"' :: ':' :: ' ' :: jsonDumps v ++
        ',' :: ' ' :: objDumps rest

end

/-- JSON insignificant whitespace. -/
def isWsChar (c : Char) : Bool :=
  c == ' ' || c == '\t' || c == '\n' || c == '\r'

/-- Skip insignificant whitespace. -/
def skipWs (cs : List Char) : List Char := cs.dropWhile isWsChar

/-- Inverse of `escapeChar` for one escape code. -/
def unescape (c : Char) : Option Char :=
  if c = '"' then some '"'
  else if c = '\\' then some '\\'
  else if c = '/' then some '/'
  else if c = 'n' then some '\n'
  else if c = 't' then some '\t'
  else if c = 'r' then some '\r'
  else if c = 'b' then some (Char.ofNat 8)
  else if c = 'f' then some (Char.ofNat 12)
  else none

/-- Parse a JSON string body (after the opening quote), returning the
decoded characters and the remainder after the closing quote. -/
def parseStringBody : List Char → Option (List Char × List Char)
  | [] => none
  | c :: rest =>
    if c = '"' then some ([], rest)
    else if c = '\\' then
      match rest with
      | [] => none
      | e :: rest₁ =>
        match unescape e, parseStringBody rest₁ with
        | some ch, some p => some (ch :: p.1, p.2)
        | _, _ => none
    else if c.toNat < 32 then none
    else (parseStringBody rest).map fun p => (c :: p.1, p.2)

/-- Value of a digit run. -/
def digitsVal (ds : List Char) : ℕ :=
  ds.foldl (fun a c => 10 * a + (c.toNat - 48)) 0

/-- Parse digits and an optional fraction after an optional sign. -/
def parseNumCore (neg : Bool) (cs : List Char) : Option (Json × List Char) :=
  let ints := cs.takeWhile (·.isDigit)
  if ints.isEmpty then none
  else
    let rest := cs.dropWhile (·.isDigit)
    if rest.head? = some '.' then
      let fr := rest.tail.takeWhile (·.isDigit)
      if fr.isEmpty then none
      else
        let m : ℤ := ((digitsVal ints * 10 ^ fr.length + digitsVal fr : ℕ) : ℤ)
        some (.num (if neg then -m else m) fr.length,
              rest.tail.dropWhile (·.isDigit))
    else
      let m : ℤ := ((digitsVal ints : ℕ) : ℤ)
      some (.num (if neg then -m else m) 0, rest)

/-- Parse a JSON number (optional sign, digits, optional fraction). -/
def parseNumBody (cs : List Char) : Option (Json × List Char) :=
  if cs.head? = some '-' then parseNumCore true cs.tail
  else parseNumCore false cs

mutual

/-- Fueled JSON value parser (`json.loads` core). -/
def parseVal : ℕ → List Char → Option (Json × List Char)
  | 0, _ => none
  | f + 1, cs =>
    match skipWs cs with
    | [] => none
    | c :: rest =>
      if c = 'n' then
        if ['u', 'l', 'l'].isPrefixOf rest then some (.null, rest.drop 3)
        else none
      else if c = 't' then
        if ['r', 'u', 'e'].isPrefixOf rest then some (.bool true, rest.drop 3)
        else none
      else if c = 'f' then
        if ['a', 'l', 's', 'e'].isPrefixOf rest then
          some (.bool false, rest.drop 4)
        else none
      else if c = '"' then
        (parseStringBody rest).map fun p => (.str p.1, p.2)
      else if c = '[' then
        if (skipWs rest).head? = some ']' then
          some (.arr .nil, (skipWs rest).tail)
        else (parseArrItems f rest).map fun p => (.arr p.1, p.2)
      else if c = '{' then
        if (skipWs rest).head? = some '}' then
          some (.obj .nil, (skipWs rest).tail)
        else (parseObjFields f rest).map fun p => (.obj p.1, p.2)
      else parseNumBody (c :: rest)

/-- One or more comma-separated array items up to `]`. -/
def parseArrItems : ℕ → List Char → Option (JArr × List Char)
  | 0, _ => none
  | f + 1, cs =>
    match parseVal f cs with
    | none => none
    | some (v, rest) =>
      match skipWs rest with
      | [] => none
      | c :: rest₁ =>
        if c = ',' then (parseArrItems f rest₁).map fun p => (.cons v p.1, p.2)
        else if c = ']' then some (.cons v .nil, rest₁)
        else none

/-- One or more comma-separated object members up to `}`. -/
def parseObjFields : ℕ → List Char → Option (JObj × List Char)
  | 0, _ => none
  | f + 1, cs =>
    match skipWs cs with
    | [] => none
    | c :: rest =>
      if c = '"' then
        match parseStringBody rest with
        | none => none
        | some (k, rest₁) =>
          match skipWs rest₁ with
          | [] => none
          | c₁ :: rest₂ =>
            if c₁ = ':' then
              match parseVal f rest₂ with
              | none => none
              | some (v, rest₃) =>
                match skipWs rest₃ with
                | [] => none
                | c₂ :: rest₄ =>
                  if c₂ = ',' then
                    (parseObjFields f rest₄).map fun p => (.cons k v p.1, p.2)
                  else if c₂ = '}' then some (.cons k v .nil, rest₄)
                  else none
            else none
      else none

end

/-- `json.loads`: one JSON document, with only whitespace allowed after. -/
def jsonLoads (cs : List Char) : Option Json :=
  match parseVal (cs.length + 1) cs with
  | some (v, rest) => if (skipWs rest).isEmpty then some v else none
  | none => none

/-!
## `utils/json_helpers.py`: `extract_json`
-/

/-- Errors of `extract_json`: the deliberate
`Exception("Could not extract JSON from agent response")`, and the
unhandled `ValueError` that `response.index("```", start)` raises when
the `` ```json `` marker has no closing fence. -/
inductive ExtractErr where
  | extractionError
  | valueErrorCrash
deriving DecidableEq, Repr

/-- `haystack.find(pattern)` / `.index(pattern)`: index of the first
occurrence of `pat` as a contiguous substring. -/
def findSub (hay pat : List Char) : Option ℕ :=
  if pat.isPrefixOf hay then some 0
  else
    match hay with
    | [] => none
    | _ :: t => (findSub t pat).map (· + 1)

/-- `str.rfind(c)` for a single character: index of its last occurrence. -/
def rfindIdx (hay : List Char) (c : Char) : Option ℕ :=
  (hay.reverse.findIdx? (· = c)).map fun i => hay.length - 1 - i

/-- Python `str.strip()` whitespace. -/
def isPyWs (c : Char) : Bool :=
  c == ' ' || c == '\t' || c == '\n' || c == '\r' ||
    c == Char.ofNat 11 || c == Char.ofNat 12

/-- Python `str.strip()`. -/
def stripChars (cs : List Char) : List Char :=
  ((cs.dropWhile isPyWs).reverse.dropWhile isPyWs).reverse

/-- The `` ```json `` marker. -/
def jsonTag : List Char := ['`', '`', '`', 'j', 's', 'o', 'n']

/-- A closing ` ``` ` fence. -/
def fence3 : List Char := ['`', '`', '`']

/-- `extract_json(response)`.  Branch (a): the text after the first
`` ```json `` marker up to the next ` ``` `, stripped (an unclosed marker
makes `response.index` raise).  Branch (b): from the first `{` to one
past the last `}` (an empty slice when no `}` follows).  Branch (c): the
explicit extraction exception. -/
def extract_json (response : List Char) : Except ExtractErr (List Char) :=
  match findSub response jsonTag with
  | some i =>
    let start := i + 7
    match findSub (response.drop start) fence3 with
    | some j => .ok (stripChars ((response.drop start).take j))
    | none => .error .valueErrorCrash
  | none =>
    match response.findIdx? (· = '{') with
    | some s =>
      let stop := match rfindIdx response '}' with
        | some e => e + 1
        | none => 0
      .ok ((response.take stop).drop s)
    | none => .error .extractionError

/-- Errors of extraction followed by `json.loads` in `predict_schedule`:
the three outcomes are distinct exception classes in the source
(`Exception`, `ValueError`, `json.JSONDecodeError`). -/
inductive PipeErr where
  | extraction
  | crash
  | malformed
deriving DecidableEq, Repr

/-- `json.loads(extract_json(response))` as one pipeline. -/
def extract_then_parse (response : List Char) : Except PipeErr Json :=
  match extract_json response with
  | .error .extractionError => .error .extraction
  | .error .valueErrorCrash => .error .crash
  | .ok s =>
    match jsonLoads s with
    | some v => .ok v
    | none => .error .malformed

/-!
## `predict_schedule`: building the `MaintenanceSchedule` from the parsed
JSON object

The source copies `data[...]` fields straight into the dataclass.  Only
the three timestamp strings pass through
`datetime.fromisoformat(x.replace('Z', '+00:00'))`; every other field is
stored verbatim, whatever its value.  (The generated `id` and
`created_at`, both wall-clock stamps, are not modelled.)
-/

/-- The constructed schedule; non-timestamp decision fields keep the raw
JSON values the source stores without any check. -/
structure MaintenanceSchedule where
  workOrderId : String
  machineId : String
  scheduledDate : PyDateTime
  windowId : Json
  windowStartTime : PyDateTime
  windowEndTime : PyDateTime
  productionImpact : Json
  isAvailable : Json
  riskScore : Json
  predictedFailureProbability : Json
  recommendedAction : Json
  reasoning : Json
deriving DecidableEq, Repr

/-- `data[k]`: `KeyError` when missing, `TypeError` when `data` is not an
object. -/
def jsonItemFields : JObj → List Char → Except PyErr Json
  | .nil, _ => .error .keyError
  | .cons k v rest, key => if k = key then .ok v else jsonItemFields rest key

/-- `data[k]` on a JSON value. -/
def jsonItem (o : Json) (k : List Char) : Except PyErr Json :=
  match o with
  | .obj fields => jsonItemFields fields k
  | _ => .error .typeError

/-- `.replace(...)` on a non-string raises `AttributeError`. -/
def asPyStr : Json → Except PyErr (List Char)
  | .str s => .ok s
  | _ => .error .attributeError

/-- `datetime.fromisoformat` raising `ValueError` on failure. -/
def fromisoformatE (cs : List Char) : Except PyErr PyDateTime :=
  match fromisoformat cs with
  | some d => .ok d
  | none => .error .valueError

/-- The field extraction of `predict_schedule` after `json.loads`
(source lines building the returned `MaintenanceSchedule`). -/
def predict_schedule_build (wo : WorkOrder) (data : Json) :
    Except PyErr MaintenanceSchedule := do
  let sdJ ← jsonItem data "scheduledDate".data
  let sdS ← asPyStr sdJ
  let sd ← fromisoformatE (replaceZ sdS)
  let mw ← jsonItem data "maintenanceWindow".data
  let wid ← jsonItem mw "id".data
  let stJ ← jsonItem mw "startTime".data
  let stS ← asPyStr stJ
  let st ← fromisoformatE (replaceZ stS)
  let etJ ← jsonItem mw "endTime".data
  let etS ← asPyStr etJ
  let et ← fromisoformatE (replaceZ etS)
  let impact ← jsonItem mw "productionImpact".data
  let avail ← jsonItem mw "isAvailable".data
  let rs ← jsonItem data "riskScore".data
  let pf ← jsonItem data "predictedFailureProbability".data
  let ra ← jsonItem data "recommendedAction".data
  let reasoning ← jsonItem data "reasoning".data
  pure { workOrderId := wo.id, machineId := wo.machineId,
         scheduledDate := sd, windowId := wid, windowStartTime := st,
         windowEndTime := et, productionImpact := impact,
         isAvailable := avail, riskScore := rs,
         predictedFailureProbability := pf, recommendedAction := ra,
         reasoning := reasoning }

/-!
## General helper lemmas
-/

theorem take_reverse_eq_reverse_drop (l : List α) (n : ℕ) :
    (l.take n).reverse = l.reverse.drop (l.length - n) := by
  induction l generalizing n with
  | nil => simp
  | cons a t ih =>
    cases n with
    | zero =>
      simp only [List.take_zero, List.reverse_nil, Nat.sub_zero]
      exact (List.drop_eq_nil_of_le (by simp)).symm
    | succ n =>
      have hle : t.length - n ≤ t.reverse.length := by
        simp only [List.length_reverse]; omega
      simp only [List.take_succ_cons, List.reverse_cons, List.length_cons,
        Nat.succ_sub_succ]
      rw [List.drop_append_of_le_length hle, ih n]

theorem find?_eq_head?_filter (l : List α) (p : α → Bool) :
    l.find? p = (l.filter p).head? := by
  induction l with
  | nil => simp
  | cons a t ih =>
    cases hpa : p a with
    | true =>
      rw [List.find?_cons_of_pos _ hpa, List.filter_cons, hpa]
      rfl
    | false =>
      rw [List.find?_cons_of_neg _ (by simp [hpa]), List.filter_cons, hpa, ih]
      rfl

theorem fmod_mul_self (k : ℤ) : (86400 * k).fmod 86400 = 0 := by
  rw [Int.fmod_def, Int.mul_fdiv_cancel_left _ (by norm_num)]
  ring

/-- `C7` core arithmetic: `replace(hour=22)` on a midnight instant. -/
theorem replaceHour_midnight (k : ℤ) (h : ℤ) :
    replaceHour (86400 * k) h = 86400 * k + h * 3600 := by
  unfold replaceHour
  rw [Int.mul_fdiv_cancel_left _ (by norm_num), fmod_mul_self,
    show Int.emod 0 3600 = 0 from rfl]
  ring

theorem replaceHourMinute_midnight (k : ℤ) (h m : ℤ) :
    replaceHourMinute (86400 * k) h m = 86400 * k + h * 3600 + m * 60 := by
  unfold replaceHourMinute
  rw [Int.mul_fdiv_cancel_left _ (by norm_num), fmod_mul_self,
    show Int.emod 0 60 = 0 from rfl]
  ring

/-!
## Claim theorems: C7, C8, C9, C10
-/

/-- C7: for every `daysAhead ≥ 0`, when the maintenance-window backend is
empty (`some []`) or unreachable (`none`), `getWindows(daysAhead)` returns
exactly `daysAhead` synthetic windows, one per day: the `i`-th covers day
`now.fdiv 86400 + 1 + i`, starting at 22:00 (`22 * 3600` seconds into the
day) and ending at 06:00 of the following day (`86400 + 6 * 3600`), with
production impact `"Low"` and `isAvailable = true`. -/
theorem mock_windows_fallback_spec
    (backendItems : Option (List MaintenanceWindow)) (daysAhead : ℕ)
    (now : ℤ) (h : backendItems = none ∨ backendItems = some []) :
    (get_available_maintenance_windows backendItems daysAhead now).length =
        daysAhead ∧
    ∀ i, i < daysAhead →
      (get_available_maintenance_windows backendItems daysAhead now)[i]? =
        some { id := "mw-" ++ fmtYmd (86400 * (now.fdiv 86400 + 1 + i)) ++
                 "-night",
               startTime := some (86400 * (now.fdiv 86400 + 1 + i) + 22 * 3600),
               endTime := some (86400 * (now.fdiv 86400 + 1 + i) + 86400 +
                 6 * 3600),
               productionImpact := "Low",
               isAvailable := true } := by
  have hmock : get_available_maintenance_windows backendItems daysAhead now =
      generate_mock_windows daysAhead now := by
    rcases h with h | h <;> simp [h, get_available_maintenance_windows]
  rw [hmock]
  constructor
  · simp [generate_mock_windows]
  · intro i hi
    have hbase : (86400 * now.fdiv 86400 + 86400 + 86400 * Int.ofNat i) =
        86400 * (now.fdiv 86400 + 1 + (i : ℤ)) := by
      rw [Int.ofNat_eq_coe]
      ring
    have hend : 86400 * (now.fdiv 86400 + 1 + (i : ℤ)) + 23 * 3600 + 59 * 60 +
        (6 * 3600 + 60) =
        86400 * (now.fdiv 86400 + 1 + (i : ℤ)) + 86400 + 6 * 3600 := by ring
    simp only [generate_mock_windows, List.getElem?_map,
      List.getElem?_range hi, Option.map_some']
    rw [hbase, replaceHour_midnight, replaceHourMinute_midnight, hend]

/-- C7 witness: three windows from an empty backend at a concrete clock
reading. -/
theorem mock_windows_fallback_spec_witness :
    (get_available_maintenance_windows (some []) 3 86461).length = 3 :=
  (mock_windows_fallback_spec (some []) 3 86461 (Or.inr rfl)).1

/-- C8: saving a thread transcript stores, under the machine-id key, at
most the last 10 `(role, content)` pairs of the chronological message
sequence (most-recent-last: `thread.list_messages()` yields newest first,
so the chronological sequence is its reverse), the stored document
replaces whatever was previously stored under that key (its transcript is
exactly the computed window, not an append), and every other key is
untouched. -/
theorem transcript_save_spec (store : ChatStore) (machineId : String)
    (threadNewestFirst : List ChatMsg) :
    ∃ doc,
      save_thread_history store machineId threadNewestFirst machineId =
          some doc ∧
      doc.history = threadNewestFirst.reverse.drop
          (threadNewestFirst.reverse.length - 10) ∧
      doc.history.length ≤ 10 ∧
      ∀ k, k ≠ machineId →
        save_thread_history store machineId threadNewestFirst k = store k := by
  refine ⟨⟨machineId, "machine", (threadNewestFirst.take 10).reverse,
    "predictive_maintenance"⟩, ?_, ?_, ?_, ?_⟩
  · simp [save_thread_history, save_machine_chat_history]
  · show (threadNewestFirst.take 10).reverse = _
    rw [take_reverse_eq_reverse_drop, List.length_reverse]
  · show (threadNewestFirst.take 10).reverse.length ≤ 10
    simp [List.length_reverse, List.length_take]
  · intro k hk
    simp [save_thread_history, save_machine_chat_history, hk]

/-- C8 witness: a 12-message thread is stored as its last 10 messages in
chronological order under the machine key. -/
theorem transcript_save_spec_witness :
    ∃ doc,
      save_thread_history (fun _ => Option.none) "M1"
          ((List.range 12).map fun i => ⟨"user", natStr i⟩) "M1" = some doc ∧
      doc.history = ((List.range 12).map fun i =>
          (⟨"user", natStr i⟩ : ChatMsg)).reverse.drop
          (((List.range 12).map fun i =>
              (⟨"user", natStr i⟩ : ChatMsg)).reverse.length - 10) ∧
      doc.history.length ≤ 10 := by
  obtain ⟨doc, h1, h2, h3, _⟩ := transcript_save_spec (fun _ => Option.none)
    "M1" ((List.range 12).map fun i => ⟨"user", natStr i⟩)
  exact ⟨doc, h1, h2, h3⟩

/-- C9: `update_work_order_status(id, newStatus)` on a store holding
exactly one document with that id deletes it (under its old partition key,
the status) and re-inserts it with `status = newStatus` and every other
field — id, machineId, faultType, priority, assignedTechnician,
requiredParts, estimatedDuration, createdAt — equal to its previously
stored value; documents with other ids are untouched. -/
theorem update_work_order_status_spec (store : List WorkOrder)
    (workOrderId newStatus : String) (doc : WorkOrder)
    (hfind : store.filter (fun w => w.id == workOrderId) = [doc]) :
    ∃ store' doc',
      update_work_order_status store workOrderId newStatus = .ok store' ∧
      store'.filter (fun w => w.id == workOrderId) = [doc'] ∧
      store'.filter (fun w => !(w.id == workOrderId)) =
        store.filter (fun w => !(w.id == workOrderId)) ∧
      doc'.status = newStatus ∧ doc'.id = doc.id ∧
      doc'.machineId = doc.machineId ∧ doc'.faultType = doc.faultType ∧
      doc'.priority = doc.priority ∧
      doc'.assignedTechnician = doc.assignedTechnician ∧
      doc'.requiredParts = doc.requiredParts ∧
      doc'.estimatedDuration = doc.estimatedDuration ∧
      doc'.createdAt = doc.createdAt := by
  have hid : doc.id = workOrderId := by
    have : doc ∈ store.filter (fun w => w.id == workOrderId) := by
      rw [hfind]; exact List.mem_singleton_self doc
    simpa using (List.of_mem_filter this)
  have hget : get_work_order store workOrderId = .ok doc := by
    unfold get_work_order
    rw [find?_eq_head?_filter, hfind]; rfl
  -- after erasing the old document no element with this id remains, and
  -- the other-id elements are unchanged
  have herase : ∀ (l : List WorkOrder),
      l.filter (fun w => w.id == workOrderId) = [doc] →
      (l.eraseP (fun w => w.id == workOrderId && w.status == doc.status)).filter
          (fun w => w.id == workOrderId) = [] ∧
      (l.eraseP (fun w => w.id == workOrderId && w.status == doc.status)).filter
          (fun w => !(w.id == workOrderId)) =
        l.filter (fun w => !(w.id == workOrderId)) := by
    intro l
    induction l with
    | nil => intro h; simp at h
    | cons a t ih =>
      intro h
      by_cases ha : a.id = workOrderId
      · have : a = doc ∧ t.filter (fun w => w.id == workOrderId) = [] := by
          simpa [ha] using h
        obtain ⟨rfl, ht⟩ := this
        rw [List.eraseP_cons_of_pos (by simp [ha])]
        exact ⟨ht, by simp [ha]⟩
      · have h' : t.filter (fun w => w.id == workOrderId) = [doc] := by
          simpa [ha] using h
        obtain ⟨ih1, ih2⟩ := ih h'
        rw [List.eraseP_cons_of_neg (by simp [ha])]
        exact ⟨by simpa [ha] using ih1, by simpa [ha] using ih2⟩
  obtain ⟨h1, h2⟩ := herase store hfind
  have hany : (store.eraseP
      (fun w => w.id == workOrderId && w.status == doc.status)).any
      (fun w => w.id == doc.id && w.status == newStatus) = false := by
    rw [List.any_eq_false]
    intro w hw
    have hnot : ¬ (w.id = workOrderId) := by
      by_contra hc
      have : w ∈ (store.eraseP
          (fun w => w.id == workOrderId && w.status == doc.status)).filter
          (fun w => w.id == workOrderId) := List.mem_filter.2 ⟨hw, by simp [hc]⟩
      rw [h1] at this
      simp at this
    simp [hid, hnot]
  have hupdate : update_work_order_status store workOrderId newStatus =
      .ok ((store.eraseP
        (fun w => w.id == workOrderId && w.status == doc.status)) ++
        [{ doc with status := newStatus }]) := by
    unfold update_work_order_status upsert_item delete_item
    rw [hget]
    simp only [hany, Bool.false_eq_true, if_false]
  refine ⟨_, { doc with status := newStatus }, hupdate, ?_, ?_, rfl, rfl, rfl,
    rfl, rfl, rfl, rfl, rfl, rfl⟩
  · rw [List.filter_append, h1]
    simp [hid]
  · rw [List.filter_append, h2]
    simp [hid]

/-- C9 witness: a concrete two-document store; updating `wo-1` from
`Created` to `Scheduled` preserves every other field and the other
document. -/
theorem update_work_order_status_spec_witness :
    ∃ store' doc',
      update_work_order_status
        [{ id := "wo-1", machineId := "M1", faultType := "F", priority := "High",
           assignedTechnician := "t", requiredParts := [],
           estimatedDuration := 60, createdAt := some 0, status := "Created" },
         { id := "wo-2", machineId := "M2", faultType := "G", priority := "Low",
           assignedTechnician := "u", requiredParts := [],
           estimatedDuration := 30, createdAt := none, status := "Ready" }]
        "wo-1" "Scheduled" = .ok store' ∧
      store'.filter (fun w => w.id == "wo-1") = [doc'] ∧
      doc'.status = "Scheduled" ∧ doc'.machineId = "M1" ∧
      doc'.estimatedDuration = 60 := by
  obtain ⟨store', doc', hok, hfil, _, hst, _, hm, _, _, _, _, hd, _⟩ :=
    update_work_order_status_spec
      [{ id := "wo-1", machineId := "M1", faultType := "F", priority := "High",
         assignedTechnician := "t", requiredParts := [],
         estimatedDuration := 60, createdAt := some 0, status := "Created" },
       { id := "wo-2", machineId := "M2", faultType := "G", priority := "Low",
         assignedTechnician := "u", requiredParts := [],
         estimatedDuration := 30, createdAt := none, status := "Ready" }]
      "wo-1" "Scheduled"
      { id := "wo-1", machineId := "M1", faultType := "F", priority := "High",
        assignedTechnician := "t", requiredParts := [],
        estimatedDuration := 60, createdAt := some 0, status := "Created" }
      (by decide)
  exact ⟨store', doc', hok, hfil, hst, hm, hd⟩

/-- C10: `parse_datetime` is total — its embedding is a function into
`Option` whose value is characterised on every constructor of the
dynamically typed input: a datetime passes through unchanged; `None`, the
empty string and non-string scalars give `None`; a non-empty string is
parsed by `fromisoformat` after replacing `'Z'` with `'+00:00'` (so a
trailing `Z` is read as UTC offset `+00:00`), and an unparseable string
gives `None` rather than an error. -/
theorem parse_datetime_spec :
    (∀ d, parse_datetime (.dt d) = some d) ∧
    parse_datetime .none = Option.none ∧
    parse_datetime (.str []) = Option.none ∧
    (∀ n, parse_datetime (.num n) = Option.none) ∧
    (∀ s, s ≠ [] → parse_datetime (.str s) = fromisoformat (replaceZ s)) ∧
    (∀ s, s ≠ [] → fromisoformat (replaceZ s) = Option.none →
      parse_datetime (.str s) = Option.none) := by
  refine ⟨fun d => rfl, rfl, rfl, fun n => rfl, ?_, ?_⟩
  · intro s hs
    simp [parse_datetime, List.isEmpty_iff, hs]
  · intro s hs hnone
    simp [parse_datetime, List.isEmpty_iff, hs, hnone]

/-- C10 witness: a trailing-`Z` timestamp parses to an aware datetime with
UTC offset `0`; a garbage string and the empty string give `None`. -/
theorem parse_datetime_spec_witness :
    parse_datetime (.str "2025-12-15T08:00:00Z".data) =
      some { secs := 1765785600, tz := some 0 } ∧
    parse_datetime (.str "garbage".data) = Option.none ∧
    parse_datetime (.str []) = Option.none := by
  refine ⟨?_, ?_, parse_datetime_spec.2.2.1⟩
  · rw [parse_datetime_spec.2.2.2.2.1 _ (by decide)]
    decide
  · exact parse_datetime_spec.2.2.2.2.2 _ (by decide) (by decide)

/-!
## Claim theorems: C2, C3, C6 (context assembly and statistics)

`specGaps`, `specMTBF`, `specLastOccurrence`, `specDaysSince` are written
from the spec's words ("mean of the day-gaps between consecutive
occurrences sorted ascending", "(now − lastOccurrence).days") and
compared against the embedded code.
-/

/-- Spec-side: day gaps between consecutive entries. -/
def specGaps (l : List ℤ) : List ℤ :=
  (l.zip l.tail).map fun p => (p.2 - p.1).fdiv 86400

/-- Spec-side: arithmetic mean of consecutive day-gaps. -/
def gapMean (l : List ℤ) : ℚ :=
  (((specGaps l).sum : ℤ) : ℚ) / ((specGaps l).length : ℚ)

/-- Spec-side MTBF of the work order's relevant dated history. -/
def specMTBF (wo : WorkOrder) (hist : List MaintenanceHistory) : ℚ :=
  gapMean (sortAsc (datedOccurrences (relevant_history wo hist)))

/-- Maximum of a list of instants (0 for the empty list, which no caller
reaches). -/
def listMaxD : List ℤ → ℤ
  | [] => 0
  | x :: xs => xs.foldl max x

/-- Spec-side most recent relevant occurrence. -/
def specLastOccurrence (wo : WorkOrder) (hist : List MaintenanceHistory) : ℤ :=
  listMaxD (datedOccurrences (relevant_history wo hist))

/-- Spec-side `(now − lastOccurrence).days`. -/
def specDaysSince (wo : WorkOrder) (hist : List MaintenanceHistory)
    (now : ℤ) : ℤ :=
  (now - specLastOccurrence wo hist).fdiv 86400

theorem dayGaps_eq_specGaps : ∀ l : List ℤ, dayGaps l = specGaps l := by
  intro l
  induction l with
  | nil => rfl
  | cons a t ih =>
    cases t with
    | nil => rfl
    | cons b r =>
      show (b - a).fdiv 86400 :: dayGaps (b :: r) = specGaps (a :: b :: r)
      rw [ih]
      rfl

theorem specGaps_length (l : List ℤ) : (specGaps l).length = l.length - 1 := by
  simp [specGaps, List.length_zip]

theorem pyDiv_ok {b : ℚ} (a : ℚ) (hb : b ≠ 0) : pyDiv a b = .ok (a / b) := by
  simp [pyDiv, hb]

theorem listMax_eq_listMaxD {l : List ℤ} (h : l ≠ []) :
    listMax l = .ok (listMaxD l) := by
  cases l with
  | nil => exact absurd rfl h
  | cons x xs => rfl

theorem code_intervals_eq (rel : List MaintenanceHistory) :
    code_intervals rel = specGaps (code_dates rel) := by
  unfold code_intervals
  exact dayGaps_eq_specGaps _

theorem code_dates_length (rel : List MaintenanceHistory) :
    (code_dates rel).length = (datedOccurrences rel).length := by
  unfold code_dates sortAsc
  exact List.length_insertionSort _ _

/-- When the relevant history has at most one dated record, the MTBF
block contributes no lines. -/
theorem mtbf_lines_le1 (rel : List MaintenanceHistory) (now : ℤ)
    (h1 : (datedOccurrences rel).length ≤ 1) :
    mtbf_lines rel now = .ok [] := by
  unfold mtbf_lines
  by_cases h2 : 2 ≤ rel.length
  · rw [if_pos h2, if_neg]
    rw [code_dates_length]
    omega
  · rw [if_neg h2]

/-- When at least two dated relevant records exist and the mean gap is
nonzero, the MTBF block is exactly the three statistics lines, carrying
the values of the spec formulas. -/
theorem mtbf_lines_of_ge2 (rel : List MaintenanceHistory) (now : ℤ)
    (h2 : 2 ≤ (datedOccurrences rel).length)
    (hnz : gapMean (code_dates rel) ≠ 0) :
    mtbf_lines rel now =
      .ok ["- Mean Time Between Failures (MTBF): " ++
             fmtFixed 0 (gapMean (code_dates rel)) ++ " days",
           "- Days since last occurrence: " ++
             fmtFixed 0 (((now - listMaxD (datedOccurrences rel)).fdiv 86400 :
               ℤ) : ℚ),
           "- Failure cycle progress: " ++
             fmtFixed 1
               ((((now - listMaxD (datedOccurrences rel)).fdiv 86400 : ℤ) : ℚ) /
                 gapMean (code_dates rel) * 100) ++ "%"] := by
  have hrel2 : 2 ≤ rel.length :=
    le_trans h2 (List.length_filterMap_le _ _)
  have hsorted2 : 2 ≤ (code_dates rel).length := by
    rw [code_dates_length]
    exact h2
  have hlen : (((code_intervals rel).length : ℕ) : ℚ) ≠ 0 := by
    rw [code_intervals_eq, specGaps_length, code_dates_length]
    exact Nat.cast_ne_zero.mpr (by omega)
  have hne : datedOccurrences rel ≠ [] := by
    intro hcontra
    rw [hcontra] at h2
    simp at h2
  unfold mtbf_lines
  rw [if_pos hrel2, if_pos hsorted2, pyDiv_ok _ hlen,
    listMax_eq_listMaxD hne]
  have hmean : (((code_intervals rel).sum : ℤ) : ℚ) /
      (((code_intervals rel).length : ℕ) : ℚ) = gapMean (code_dates rel) := by
    rw [code_intervals_eq]
    rfl
  rw [hmean]
  dsimp only
  rw [pyDiv_ok _ hnz]

/-- The similar-fault block when relevant records exist, given the MTBF
block's outcome. -/
theorem similar_block_of_mtbf (wo : WorkOrder) (rel : List MaintenanceHistory)
    (now : ℤ) (ms : List String) (hne : rel ≠ [])
    (hm : mtbf_lines rel now = .ok ms) :
    similar_block wo rel now =
      .ok (["**Similar fault type (" ++ wo.faultType ++ "):**",
            "- Occurrences: " ++ natStr rel.length,
            "- Average downtime: " ++
              fmtFixed 0 ((((rel.map (fun h => h.downtime)).sum : ℤ) : ℚ) /
                (rel.length : ℚ)) ++ " minutes",
            "- Average cost: $" ++
              fmtFixed 2 ((rel.map (fun h => h.cost)).sum /
                (rel.length : ℚ))] ++ ms) := by
  have hlen : ((rel.length : ℕ) : ℚ) ≠ 0 :=
    Nat.cast_ne_zero.mpr fun h => hne (List.length_eq_zero.mp h)
  unfold similar_block
  rw [if_neg (by simp [List.isEmpty_iff, hne]), pyDiv_ok _ hlen]
  dsimp only
  rw [pyDiv_ok _ hlen]
  dsimp only
  rw [hm]

/-- The history section when history is non-empty, given the similar
block's outcome. -/
theorem history_section_of_ne (wo : WorkOrder) (hist : List MaintenanceHistory)
    (now : ℤ) (sb : List String) (hne : hist ≠ [])
    (hsb : similar_block wo (relevant_history wo hist) now = .ok sb) :
    history_section wo hist now =
      .ok (["Total maintenance events: " ++ natStr hist.length, ""] ++ sb ++
           ["", "**Recent maintenance events (all types):**"] ++
           recent_lines hist) := by
  unfold history_section
  rw [if_neg (by simp [List.isEmpty_iff, hne]), hsb]

/-- The full line list, given the history section's outcome. -/
theorem build_context_lines_of (wo : WorkOrder)
    (hist : List MaintenanceHistory) (windows : List MaintenanceWindow)
    (now : ℤ) (hs : List String)
    (hhs : history_section wo hist now = .ok hs) :
    build_context_lines wo hist windows now =
      .ok (header_lines wo ++ hs ++
           ["", "## Available Maintenance Windows (Next 14 Days)"] ++
           window_lines windows ++ footer_lines) := by
  unfold build_context_lines
  rw [hhs]

/-- The assembled context succeeds whenever the similar block does. -/
theorem build_context_lines_ok (wo : WorkOrder)
    (hist : List MaintenanceHistory) (windows : List MaintenanceWindow)
    (now : ℤ)
    (hsim : ∃ sb, similar_block wo (relevant_history wo hist) now = .ok sb) :
    ∃ ls, build_context_lines wo hist windows now = .ok ls := by
  by_cases hh : hist = []
  · subst hh
    exact ⟨_, rfl⟩
  · obtain ⟨sb, hsb⟩ := hsim
    exact ⟨_, build_context_lines_of wo hist windows now _
      (history_section_of_ne wo hist now sb hh hsb)⟩

/-- The only dependence of the context on the wall clock is the day count
against the most recent relevant occurrence. -/
theorem mtbf_lines_now_congr (rel : List MaintenanceHistory) (now₁ now₂ : ℤ)
    (h : ∀ L, listMax (datedOccurrences rel) = .ok L →
      (now₁ - L).fdiv 86400 = (now₂ - L).fdiv 86400) :
    mtbf_lines rel now₁ = mtbf_lines rel now₂ := by
  unfold mtbf_lines
  by_cases h2 : 2 ≤ rel.length
  · by_cases hd : 2 ≤ (code_dates rel).length
    · simp only [if_pos h2, if_pos hd]
      cases hdiv : pyDiv (((code_intervals rel).sum : ℤ) : ℚ)
          ((code_intervals rel).length : ℚ) with
      | error e => rfl
      | ok avg =>
        cases hmax : listMax (datedOccurrences rel) with
        | error e => rfl
        | ok L =>
          dsimp only
          rw [h L hmax]
    · simp only [if_pos h2, if_neg hd]
  · simp only [if_neg h2]

/-- C2 (amended): context assembly is a pure deterministic function of the
work order, history, windows and the instant read from the wall clock
*inside* the function (`datetime.utcnow()` in `_build_context`); "now" is
not a parameter of the source operation.  Two calls with identical
explicit inputs produce byte-identical text whenever the two clock
readings yield the same floored day count against the most recent
relevant occurrence — in particular always when fewer than two dated
relevant records exist — but not in general (see the counterexample). -/
theorem build_context_clock_dependence (wo : WorkOrder)
    (hist : List MaintenanceHistory) (windows : List MaintenanceWindow)
    (now₁ now₂ : ℤ)
    (h : ∀ L, listMax (datedOccurrences (relevant_history wo hist)) = .ok L →
      (now₁ - L).fdiv 86400 = (now₂ - L).fdiv 86400) :
    build_context wo hist windows now₁ = build_context wo hist windows now₂ := by
  have hm : mtbf_lines (relevant_history wo hist) now₁ =
      mtbf_lines (relevant_history wo hist) now₂ :=
    mtbf_lines_now_congr _ _ _ h
  have hsb : similar_block wo (relevant_history wo hist) now₁ =
      similar_block wo (relevant_history wo hist) now₂ := by
    unfold similar_block
    rw [hm]
  have hhs : history_section wo hist now₁ = history_section wo hist now₂ := by
    unfold history_section
    rw [hsb]
  unfold build_context build_context_lines
  rw [hhs]

/-- Concrete inputs for the C2 theorems: two dated relevant records 25
days apart. -/
def c2_wo : WorkOrder :=
  { id := "wo-1", machineId := "M1", faultType := "F", priority := "High",
    assignedTechnician := "", requiredParts := [], estimatedDuration := 60,
    createdAt := none, status := "Created" }

def c2_hist : List MaintenanceHistory :=
  [{ id := "h1", machineId := "M1", faultType := "F", occurrenceDate := some 0,
     resolutionDate := none, downtime := 10, cost := 100 },
   { id := "h2", machineId := "M1", faultType := "F",
     occurrenceDate := some 2160000, resolutionDate := none, downtime := 20,
     cost := 200 }]

/-- C2 counterexample: the claim as stated is false of the code — the
assembled text is *not* a function of the explicit inputs alone, because
`_build_context` reads `datetime.utcnow()` internally (`now` is not a
parameter).  With identical work order, history and windows, two clock
readings one day apart produce different text (the days-since and
cycle-progress lines change). -/
theorem build_context_clock_cex :
    build_context c2_wo c2_hist [] 3456000 ≠
      build_context c2_wo c2_hist [] 3542400 := by
  with_unfolding_all decide

/-- C2 witness: two distinct clock readings within the same floored day
count yield byte-identical text. -/
theorem build_context_clock_dependence_witness :
    build_context c2_wo c2_hist [] 3456000 =
      build_context c2_wo c2_hist [] 3459600 ∧ (3456000 : ℤ) ≠ 3459600 := by
  constructor
  · apply build_context_clock_dependence
    intro L hL
    rw [show listMax (datedOccurrences (relevant_history c2_wo c2_hist)) =
      Except.ok (2160000 : ℤ) from rfl] at hL
    injection hL with hL'
    subst hL'
    decide
  · decide

/-- C3: whenever the history contains at least 2 records with known
occurrence timestamps of the work order's fault type (and the mean gap is
nonzero, without which the source raises — see C6), the rendered context
contains the MTBF line carrying exactly the arithmetic mean of the
day-gaps between consecutive occurrences sorted ascending (`specMTBF`),
the days-since line carrying exactly `(now − lastOccurrence).days`, and
the cycle-progress line carrying exactly that day count `/ MTBF × 100`. -/
theorem mtbf_formula_spec (wo : WorkOrder) (hist : List MaintenanceHistory)
    (windows : List MaintenanceWindow) (now : ℤ)
    (h2 : 2 ≤ (datedOccurrences (relevant_history wo hist)).length)
    (hnz : specMTBF wo hist ≠ 0) :
    ∃ ls, build_context_lines wo hist windows now = .ok ls ∧
      ("- Mean Time Between Failures (MTBF): " ++
        fmtFixed 0 (specMTBF wo hist) ++ " days") ∈ ls ∧
      ("- Days since last occurrence: " ++
        fmtFixed 0 ((specDaysSince wo hist now : ℤ) : ℚ)) ∈ ls ∧
      ("- Failure cycle progress: " ++
        fmtFixed 1 (((specDaysSince wo hist now : ℤ) : ℚ) /
          specMTBF wo hist * 100) ++ "%") ∈ ls := by
  have hnz' : gapMean (code_dates (relevant_history wo hist)) ≠ 0 := hnz
  have hm := mtbf_lines_of_ge2 (relevant_history wo hist) now h2 hnz'
  have hrelne : relevant_history wo hist ≠ [] := by
    intro hc
    rw [hc] at h2
    simp [datedOccurrences] at h2
  have hsb := similar_block_of_mtbf wo (relevant_history wo hist) now _
    hrelne hm
  have hhist : hist ≠ [] := by
    intro hc
    apply hrelne
    rw [hc]
    rfl
  have hhs := history_section_of_ne wo hist now _ hhist hsb
  have hbl := build_context_lines_of wo hist windows now _ hhs
  refine ⟨_, hbl, ?_, ?_, ?_⟩ <;>
    simp [specMTBF, specDaysSince, specLastOccurrence, code_dates,
      List.mem_append]

/-- Concrete inputs for the C3 witness: the spec's example records
(2025-11-20 and 2025-12-15, downtimes 180/210, costs 1200/1500). -/
def c3_wo : WorkOrder :=
  { id := "wo-1", machineId := "M1", faultType := "Hydraulic Pressure Drop",
    priority := "High", assignedTechnician := "", requiredParts := [],
    estimatedDuration := 180, createdAt := none, status := "Created" }

def c3_hist : List MaintenanceHistory :=
  [{ id := "h2", machineId := "M1", faultType := "Hydraulic Pressure Drop",
     occurrenceDate := some (civilSecs 2025 12 15 0 0),
     resolutionDate := none, downtime := 210, cost := 1500 },
   { id := "h1", machineId := "M1", faultType := "Hydraulic Pressure Drop",
     occurrenceDate := some (civilSecs 2025 11 20 0 0),
     resolutionDate := none, downtime := 180, cost := 1200 }]

def c3_now : ℤ := civilSecs 2025 12 30 0 0

/-- C3 witness: on the spec's example the MTBF is exactly 25 days, average
downtime 195 minutes, average cost $1350, and the rendered context carries
the `25 days` MTBF line. -/
theorem mtbf_formula_spec_witness :
    specMTBF c3_wo c3_hist = 25 ∧
    ((((relevant_history c3_wo c3_hist).map (fun h => h.downtime)).sum : ℤ) :
      ℚ) / ((relevant_history c3_wo c3_hist).length : ℚ) = 195 ∧
    ((relevant_history c3_wo c3_hist).map (fun h => h.cost)).sum /
      ((relevant_history c3_wo c3_hist).length : ℚ) = 1350 ∧
    ∃ ls, build_context_lines c3_wo c3_hist [] c3_now = .ok ls ∧
      "- Mean Time Between Failures (MTBF): 25 days" ∈ ls := by
  refine ⟨by with_unfolding_all decide, by with_unfolding_all decide,
    by with_unfolding_all decide, ?_⟩
  obtain ⟨ls, hok, hmem, _, _⟩ :=
    mtbf_formula_spec c3_wo c3_hist [] c3_now (by decide)
      (by with_unfolding_all decide)
  refine ⟨ls, hok, ?_⟩
  have hline : "- Mean Time Between Failures (MTBF): " ++
      fmtFixed 0 (specMTBF c3_wo c3_hist) ++ " days" =
      "- Mean Time Between Failures (MTBF): 25 days" := by
    with_unfolding_all decide
  rw [← hline]
  exact hmem

/-- C6 (amended): for 0 or 1 dated relevant records, the MTBF and
cycle-progress lines are omitted (the MTBF block is empty — not zero, not
an error); averages are computed exactly when at least one relevant
record exists (the empty case renders the no-previous-occurrences line
instead, with no division); and the whole computation performs no division
by zero *provided* that, when ≥ 2 dated relevant records exist, the mean
consecutive day-gap is nonzero.  (Without that proviso the source divides
by zero — see the counterexample — which is what the amendment adds to
the claim.) -/
theorem stats_safety_spec (wo : WorkOrder) (hist : List MaintenanceHistory)
    (windows : List MaintenanceWindow) (now : ℤ)
    (hguard : 2 ≤ (datedOccurrences (relevant_history wo hist)).length →
      specMTBF wo hist ≠ 0) :
    (∃ ls, build_context_lines wo hist windows now = .ok ls) ∧
    ((datedOccurrences (relevant_history wo hist)).length ≤ 1 →
      mtbf_lines (relevant_history wo hist) now = .ok []) ∧
    (relevant_history wo hist = [] →
      similar_block wo (relevant_history wo hist) now =
        .ok ["**No previous occurrences of " ++ wo.faultType ++
          " fault type.**"]) ∧
    (relevant_history wo hist ≠ [] →
      ∃ ls, similar_block wo (relevant_history wo hist) now = .ok ls ∧
        ("- Average downtime: " ++
          fmtFixed 0 (((((relevant_history wo hist).map
            (fun h => h.downtime)).sum : ℤ) : ℚ) /
            ((relevant_history wo hist).length : ℚ)) ++ " minutes") ∈ ls ∧
        ("- Average cost: $" ++
          fmtFixed 2 (((relevant_history wo hist).map (fun h => h.cost)).sum /
            ((relevant_history wo hist).length : ℚ))) ∈ ls) := by
  have hmtbf : ∃ ms, mtbf_lines (relevant_history wo hist) now = .ok ms := by
    by_cases hd : 2 ≤ (datedOccurrences (relevant_history wo hist)).length
    · exact ⟨_, mtbf_lines_of_ge2 (relevant_history wo hist) now hd (hguard hd)⟩
    · exact ⟨[], mtbf_lines_le1 (relevant_history wo hist) now (by omega)⟩
  have hsim : ∃ sb, similar_block wo (relevant_history wo hist) now = .ok sb := by
    by_cases hrelE : relevant_history wo hist = []
    · refine ⟨["**No previous occurrences of " ++ wo.faultType ++
        " fault type.**"], ?_⟩
      unfold similar_block
      rw [if_pos (by simp [hrelE])]
    · obtain ⟨ms, hm⟩ := hmtbf
      exact ⟨_, similar_block_of_mtbf wo (relevant_history wo hist) now ms
        hrelE hm⟩
  refine ⟨build_context_lines_ok wo hist windows now hsim, ?_, ?_, ?_⟩
  · exact fun h1 => mtbf_lines_le1 (relevant_history wo hist) now h1
  · intro hrelE
    unfold similar_block
    rw [if_pos (by simp [hrelE])]
  · intro hrelne
    obtain ⟨ms, hm⟩ := hmtbf
    refine ⟨_, similar_block_of_mtbf wo (relevant_history wo hist) now ms
      hrelne hm, ?_, ?_⟩ <;> simp

/-- Concrete inputs for the C6 theorems. -/
def c6_wo : WorkOrder :=
  { id := "wo-1", machineId := "M1", faultType := "F", priority := "High",
    assignedTechnician := "", requiredParts := [], estimatedDuration := 60,
    createdAt := none, status := "Created" }

/-- Two relevant records on the same day (one hour apart): the mean
consecutive day-gap is 0. -/
def c6_hist : List MaintenanceHistory :=
  [{ id := "h1", machineId := "M1", faultType := "F", occurrenceDate := some 0,
     resolutionDate := none, downtime := 10, cost := 100 },
   { id := "h2", machineId := "M1", faultType := "F",
     occurrenceDate := some 3600, resolutionDate := none, downtime := 20,
     cost := 200 }]

/-- One relevant dated record only. -/
def c6w_hist : List MaintenanceHistory :=
  [{ id := "h1", machineId := "M1", faultType := "F", occurrenceDate := some 0,
     resolutionDate := none, downtime := 10, cost := 100 }]

/-- C6 counterexample: the claim's "never divides by zero for any input
list" is false of the code — with two dated relevant records less than a
day apart the mean gap is 0 and `days_since_last / avg_interval` raises
`ZeroDivisionError`, aborting context assembly. -/
theorem stats_safety_cex :
    build_context_lines c6_wo c6_hist [] 864000 =
      .error .zeroDivisionError := by
  with_unfolding_all decide

/-- C6 witness: with a single dated relevant record the build succeeds and
the MTBF block is empty (omitted, not zero, not an error). -/
theorem stats_safety_spec_witness :
    (∃ ls, build_context_lines c6_wo c6w_hist [] 0 = .ok ls) ∧
    mtbf_lines (relevant_history c6_wo c6w_hist) 0 = .ok [] := by
  obtain ⟨h1, h2, _, _⟩ := stats_safety_spec c6_wo c6w_hist [] 0
    (by with_unfolding_all decide)
  exact ⟨h1, h2 (by decide)⟩

/-!
## Claim theorems: C4 (extraction order and error taxonomy)
-/

theorem findSub_prefix (hay pat : List Char) (h : pat.isPrefixOf hay = true) :
    findSub hay pat = some 0 := by
  unfold findSub
  rw [if_pos h]

theorem findSub_cons_of_neg (a : Char) (t pat : List Char)
    (h : ¬ (pat.isPrefixOf (a :: t) = true)) :
    findSub (a :: t) pat = (findSub t pat).map (· + 1) := by
  rw [findSub.eq_def, if_neg h]

theorem findSub_append_of_not_mem (pre l : List Char) (c : Char)
    (pat : List Char) (h : c ∉ pre) :
    findSub (pre ++ l) (c :: pat) =
      (findSub l (c :: pat)).map (· + pre.length) := by
  induction pre with
  | nil =>
    simp only [List.nil_append, List.length_nil]
    cases findSub l (c :: pat) <;> simp
  | cons a pre ih =>
    have hmem : c ≠ a ∧ c ∉ pre := by
      constructor
      · intro hc
        exact h (hc ▸ List.mem_cons_self a pre)
      · intro hc
        exact h (List.mem_cons_of_mem a hc)
    have hca : ¬ ((c :: pat).isPrefixOf (a :: (pre ++ l)) = true) := by
      simp only [List.isPrefixOf, Bool.and_eq_true, beq_iff_eq]
      intro hcontra
      exact hmem.1 hcontra.1
    rw [List.cons_append, findSub_cons_of_neg _ _ _ hca, ih hmem.2]
    cases findSub l (c :: pat) with
    | none => simp
    | some i =>
      simp only [Option.map_some', List.length_cons]
      rw [Nat.add_assoc]

theorem findSub_none_of_not_mem (l : List Char) (c : Char) (pat : List Char)
    (h : c ∉ l) : findSub l (c :: pat) = none := by
  induction l with
  | nil => rfl
  | cons a t ih =>
    have hmem : c ≠ a ∧ c ∉ t := by
      constructor
      · intro hc
        exact h (hc ▸ List.mem_cons_self a t)
      · intro hc
        exact h (List.mem_cons_of_mem a hc)
    rw [findSub_cons_of_neg _ _ _ (by
      simp only [List.isPrefixOf, Bool.and_eq_true, beq_iff_eq]
      intro hcontra
      exact hmem.1 hcontra.1), ih hmem.2]
    rfl

theorem findIdx?_append_not (pre l : List Char) (p : Char → Bool)
    (h : ∀ a ∈ pre, p a = false) :
    (pre ++ l).findIdx? p = (l.findIdx? p).map (· + pre.length) := by
  induction pre with
  | nil =>
    simp only [List.nil_append, List.length_nil]
    cases l.findIdx? p <;> simp
  | cons a pre ih =>
    rw [List.cons_append, List.findIdx?_cons,
      if_neg (by simp [h a (List.mem_cons_self a pre)]), List.findIdx?_succ,
      ih (fun b hb => h b (List.mem_cons_of_mem a hb))]
    cases l.findIdx? p with
    | none => simp
    | some i =>
      simp only [Option.map_some', List.length_cons]
      rw [Nat.add_assoc]

/-- Branch (a) of `extract_json`: a complete fenced block with no stray
backticks before it or inside it extracts the trimmed interior. -/
theorem extract_json_fenced (p₁ body p₂ : List Char) (h₁ : '`' ∉ p₁)
    (hb : '`' ∉ body) :
    extract_json (p₁ ++ jsonTag ++ body ++ fence3 ++ p₂) =
      .ok (stripChars body) := by
  have hgoal : p₁ ++ jsonTag ++ body ++ fence3 ++ p₂ =
      p₁ ++ (jsonTag ++ (body ++ (fence3 ++ p₂))) := by simp
  rw [hgoal]
  unfold extract_json
  have hfind : findSub (p₁ ++ (jsonTag ++ (body ++ (fence3 ++ p₂)))) jsonTag =
      some p₁.length := by
    rw [show jsonTag = '`' :: ['`', '`', 'j', 's', 'o', 'n'] from rfl,
      findSub_append_of_not_mem _ _ _ _ h₁,
      findSub_prefix _ _ (by
        rw [List.isPrefixOf_iff_prefix]
        exact List.prefix_append _ _)]
    simp
  rw [hfind]
  dsimp only
  have hdrop : (p₁ ++ (jsonTag ++ (body ++ (fence3 ++ p₂)))).drop
      (p₁.length + 7) = body ++ (fence3 ++ p₂) := by
    rw [← List.append_assoc]
    exact List.drop_left' (by simp [jsonTag])
  rw [hdrop]
  have hfind2 : findSub (body ++ (fence3 ++ p₂)) fence3 = some body.length := by
    rw [show fence3 = '`' :: ['`', '`'] from rfl,
      findSub_append_of_not_mem _ _ _ _ hb,
      findSub_prefix _ _ (by
        rw [List.isPrefixOf_iff_prefix]
        exact List.prefix_append _ _)]
    simp
  rw [hfind2]
  dsimp only
  rw [show (body ++ (fence3 ++ p₂)).take body.length = body from
    List.take_left' rfl]

theorem rfindIdx_last (q₁ mid q₂ : List Char) (h₂ : '}' ∉ q₂) :
    rfindIdx (q₁ ++ ('{' :: mid ++ '}' :: q₂)) '}' =
      some (q₁.length + 1 + mid.length) := by
  unfold rfindIdx
  have hrev : (q₁ ++ ('{' :: mid ++ '}' :: q₂)).reverse =
      q₂.reverse ++ ('}' :: (mid.reverse ++ ('{' :: q₁.reverse))) := by
    simp
  rw [hrev, findIdx?_append_not _ _ _ (fun a ha => by
    rw [decide_eq_false_iff_not]
    intro hc
    exact h₂ (hc ▸ (List.mem_reverse.mp ha)))]
  simp only [List.findIdx?_cons, decide_True, if_pos, Option.map_some',
    List.length_append, List.length_cons, List.length_reverse,
    Option.some.injEq]
  omega

/-- Branch (b) of `extract_json`: no fence marker, a `{` whose first
occurrence closes at the last `}` — the inclusive slice is returned. -/
theorem extract_json_braces (q₁ mid q₂ : List Char)
    (hno : findSub (q₁ ++ ('{' :: mid ++ '}' :: q₂)) jsonTag = none)
    (h₁ : '{' ∉ q₁) (h₂ : '}' ∉ q₂) :
    extract_json (q₁ ++ ('{' :: mid ++ '}' :: q₂)) =
      .ok ('{' :: mid ++ ['}']) := by
  unfold extract_json
  rw [hno]
  dsimp only
  have hfound : (q₁ ++ ('{' :: mid ++ '}' :: q₂)).findIdx? (· = '{') =
      some q₁.length := by
    rw [findIdx?_append_not _ _ _ (fun a ha => by
      rw [decide_eq_false_iff_not]
      intro hc
      exact h₁ (hc ▸ ha))]
    simp [List.findIdx?_cons]
  rw [hfound]
  dsimp only
  rw [rfindIdx_last q₁ mid q₂ h₂]
  dsimp only
  have hsplit : q₁ ++ ('{' :: mid ++ '}' :: q₂) =
      (q₁ ++ ('{' :: mid ++ ['}'])) ++ q₂ := by simp
  rw [hsplit]
  rw [show (q₁.length + 1 + mid.length + 1) = (q₁ ++ ('{' :: mid ++ ['}'])).length
    from by simp; omega]
  rw [List.take_left, List.drop_left' (by rfl)]

/-- Branch (c) of `extract_json`: no fence marker and no `{` raises the
extraction exception. -/
theorem extract_json_no_brace (r : List Char)
    (hno : findSub r jsonTag = none) (h : '{' ∉ r) :
    extract_json r = .error .extractionError := by
  unfold extract_json
  rw [hno]
  dsimp only
  rw [show r.findIdx? (· = '{') = none from List.findIdx?_eq_none_iff.mpr
    (fun a ha => by
      rw [decide_eq_false_iff_not]
      intro hc
      exact h (hc ▸ ha))]

/-- C4: extraction proceeds in order — (a) with a `` ```json `` fenced
block (no stray backtick before or inside it) the trimmed interior is
returned; (b) otherwise, with a first `{` and a last `}`, the inclusive
slice between them; (c) with neither marker nor `{`, the extraction
exception is raised (not a crash); and a parse failure of the extracted
substring surfaces as the distinct malformed-JSON error, not as the
extraction error. -/
theorem extract_json_spec :
    (∀ p₁ body p₂ : List Char, '`' ∉ p₁ → '`' ∉ body →
      extract_json (p₁ ++ jsonTag ++ body ++ fence3 ++ p₂) =
        .ok (stripChars body)) ∧
    (∀ q₁ mid q₂ : List Char,
      findSub (q₁ ++ ('{' :: mid ++ '}' :: q₂)) jsonTag = none →
      '{' ∉ q₁ → '}' ∉ q₂ →
      extract_json (q₁ ++ ('{' :: mid ++ '}' :: q₂)) =
        .ok ('{' :: mid ++ ['}'])) ∧
    (∀ r : List Char, findSub r jsonTag = none → '{' ∉ r →
      extract_json r = .error .extractionError) ∧
    (∀ r s : List Char, extract_json r = .ok s → jsonLoads s = Option.none →
      extract_then_parse r = .error .malformed) ∧
    (∀ r : List Char, extract_json r = .error .extractionError →
      extract_then_parse r = .error .extraction) ∧
    PipeErr.malformed ≠ PipeErr.extraction := by
  refine ⟨extract_json_fenced, extract_json_braces, extract_json_no_brace,
    ?_, ?_, by decide⟩
  · intro r s hok hnone
    unfold extract_then_parse
    rw [hok]
    dsimp only
    rw [hnone]
  · intro r hr
    unfold extract_then_parse
    rw [hr]

/-- C4 witness: a fenced response extracts its interior; a braces-only
response takes the first-`{`-to-last-`}` slice; a response with no `{`
gives the extraction error while unparseable content inside braces gives
the distinct malformed error. -/
theorem extract_json_spec_witness :
    extract_json ("reply: ".data ++ jsonTag ++ "\n\x7b\"a\": 1\x7d\n".data ++
        fence3 ++ " bye".data) = .ok (stripChars "\n\x7b\"a\": 1\x7d\n".data) ∧
    stripChars "\n\x7b\"a\": 1\x7d\n".data = "\x7b\"a\": 1\x7d".data ∧
    extract_json "no braces at all".data = .error .extractionError ∧
    extract_then_parse "x \x7b not json \x7d".data = .error .malformed ∧
    extract_then_parse "no braces at all".data = .error .extraction := by
  refine ⟨extract_json_spec.1 "reply: ".data "\n\x7b\"a\": 1\x7d\n".data
      " bye".data (by decide) (by decide), by decide,
    extract_json_spec.2.2.1 "no braces at all".data (by decide) (by decide),
    ?_, ?_⟩
  · exact extract_json_spec.2.2.2.1 "x \x7b not json \x7d".data
      "\x7b not json \x7d".data (by decide) (by decide)
  · exact extract_json_spec.2.2.2.2.1 "no braces at all".data
      (extract_json_spec.2.2.1 "no braces at all".data (by decide) (by decide))

/-!
## Claim theorems: C5 (extraction round-trip)

The round trip needs that `jsonLoads` inverts `jsonDumps` on the decision
object; the following lemmas establish that for the scheduling decision
schema (string, number and boolean leaves, one nested object).
-/

/-- Characters that serialize to themselves and cannot disturb the fence
search: not a quote, backslash, control character or backtick. -/
def plainChar (c : Char) : Bool :=
  !(c == '"') && !(c == '\\') && !(c.toNat < 32 : Bool) && !(c == '`')

/-- The list following a serialized number must not extend it. -/
def notNumExt (rest : List Char) : Bool :=
  match rest with
  | [] => true
  | c :: _ => !c.isDigit && !(c == '.')

theorem skipWs_cons_not_ws {c : Char} (cs : List Char)
    (h : isWsChar c = false) : skipWs (c :: cs) = c :: cs := by
  simp [skipWs, List.dropWhile_cons, h]

theorem parseVal_ws (f : ℕ) (cs : List Char) :
    parseVal f (' ' :: cs) = parseVal f cs := by
  cases f with
  | zero => rfl
  | succ f =>
    simp only [parseVal]
    rw [show skipWs (' ' :: cs) = skipWs cs from by
      simp [skipWs, List.dropWhile_cons, isWsChar]]

theorem parseObjFields_ws (f : ℕ) (cs : List Char) :
    parseObjFields f (' ' :: cs) = parseObjFields f cs := by
  cases f with
  | zero => rfl
  | succ f =>
    simp only [parseObjFields]
    rw [show skipWs (' ' :: cs) = skipWs cs from by
      simp [skipWs, List.dropWhile_cons, isWsChar]]

theorem digit_char_isDigit : ∀ d, d < 10 → (Char.ofNat (48 + d)).isDigit = true := by
  decide

theorem digit_char_toNat : ∀ d, d < 10 → (Char.ofNat (48 + d)).toNat = 48 + d := by
  decide

theorem natDigits_ne_nil (n : ℕ) : natDigits n ≠ [] := by
  rw [natDigits]
  split <;> simp

theorem natDigits_all_digits (n : ℕ) :
    ∀ c ∈ natDigits n, c.isDigit = true := by
  induction n using Nat.strong_induction_on with
  | _ n ih =>
    rw [natDigits]
    split
    · next h =>
      intro c hc
      rw [List.mem_singleton.mp hc]
      exact digit_char_isDigit n h
    · next h =>
      intro c hc
      rcases List.mem_append.mp hc with hc | hc
      · exact ih (n / 10) (Nat.div_lt_self (by omega) (by omega)) c hc
      · rw [List.mem_singleton.mp hc]
        exact digit_char_isDigit (n % 10) (Nat.mod_lt _ (by omega))

theorem digitsVal_append_digit (ds : List Char) (c : Char) :
    digitsVal (ds ++ [c]) = 10 * digitsVal ds + (c.toNat - 48) := by
  simp [digitsVal, List.foldl_append]

theorem digitsVal_natDigits (n : ℕ) : digitsVal (natDigits n) = n := by
  induction n using Nat.strong_induction_on with
  | _ n ih =>
    rw [natDigits]
    split
    · next h =>
      simp [digitsVal, digit_char_toNat n h]
    · next h =>
      rw [digitsVal_append_digit,
        ih (n / 10) (Nat.div_lt_self (by omega) (by omega)),
        digit_char_toNat (n % 10) (Nat.mod_lt _ (by omega))]
      omega

theorem natDigits_length_le (n k : ℕ) (hk : 1 ≤ k) (h : n < 10 ^ k) :
    (natDigits n).length ≤ k := by
  induction n using Nat.strong_induction_on generalizing k with
  | _ n ih =>
    rw [natDigits]
    split
    · next hlt => simpa using hk
    · next hlt =>
      have hk2 : 2 ≤ k := by
        by_contra hc
        have : k = 1 := by omega
        rw [this] at h
        simp at h
        omega
      have hdiv : n / 10 < 10 ^ (k - 1) := by
        have h10 : (10 : ℕ) ^ k = 10 ^ (k - 1) * 10 := by
          rw [← pow_succ]
          congr 1
          omega
        rw [h10] at h
        exact Nat.div_lt_of_lt_mul (by omega)
      have := ih (n / 10) (Nat.div_lt_self (by omega) (by omega)) (k - 1)
        (by omega) hdiv
      simp only [List.length_append, List.length_cons, List.length_nil]
      omega

theorem takeWhile_append_all (p : Char → Bool) (ds rest : List Char)
    (hall : ∀ c ∈ ds, p c = true)
    (hrest : ∀ c, rest.head? = some c → p c = false) :
    (ds ++ rest).takeWhile p = ds ∧ (ds ++ rest).dropWhile p = rest := by
  induction ds with
  | nil =>
    simp only [List.nil_append]
    cases rest with
    | nil => simp
    | cons c r =>
      have := hrest c rfl
      simp [List.takeWhile_cons, List.dropWhile_cons, this]
  | cons d ds ih =>
    have hd := hall d (List.mem_cons_self d ds)
    obtain ⟨ih1, ih2⟩ := ih (fun c hc => hall c (List.mem_cons_of_mem d hc))
    simp [List.takeWhile_cons, List.dropWhile_cons, hd, ih1, ih2]

theorem digitsVal_replicate_zero (k : ℕ) (ds : List Char) :
    digitsVal (List.replicate k '0' ++ ds) = digitsVal ds := by
  induction k with
  | zero => simp
  | succ k ih =>
    rw [List.replicate_succ, List.cons_append]
    show digitsVal ('0' :: (List.replicate k '0' ++ ds)) = digitsVal ds
    simp only [digitsVal, List.foldl_cons]
    have : (10 * 0 + ('0'.toNat - 48)) = 0 := by decide
    rw [this]
    exact ih

theorem padDigits_all_digits (e m : ℕ) :
    ∀ c ∈ padDigits e m, c.isDigit = true := by
  intro c hc
  unfold padDigits at hc
  rcases List.mem_append.mp hc with hc | hc
  · rw [List.eq_of_mem_replicate hc]
    decide
  · exact natDigits_all_digits m c hc

theorem padDigits_length (e m : ℕ) (he : 1 ≤ e) (hm : m < 10 ^ e) :
    (padDigits e m).length = e := by
  unfold padDigits
  have := natDigits_length_le m e he hm
  simp only [List.length_append, List.length_replicate]
  omega

theorem digitsVal_padDigits (e m : ℕ) :
    digitsVal (padDigits e m) = m := by
  unfold padDigits
  rw [digitsVal_replicate_zero, digitsVal_natDigits]

theorem notNumExt_head {rest : List Char} (h : notNumExt rest = true) :
    ∀ c, rest.head? = some c → c.isDigit = false ∧ (c == '.') = false := by
  intro c hc
  cases rest with
  | nil => simp at hc
  | cons r rs =>
    simp only [List.head?_cons, Option.some.injEq] at hc
    subst hc
    simpa [notNumExt] using h

theorem parseNumCore_int (neg : Bool) (a : ℕ) (rest : List Char)
    (hrest : notNumExt rest = true) :
    parseNumCore neg (natDigits a ++ rest) =
      some (.num (if neg then -(a : ℤ) else (a : ℤ)) 0, rest) := by
  obtain ⟨ht, hd⟩ := takeWhile_append_all (·.isDigit) (natDigits a) rest
    (natDigits_all_digits a) (fun c hc => (notNumExt_head hrest c hc).1)
  unfold parseNumCore
  rw [ht, hd, if_neg (by simp [natDigits_ne_nil a]), if_neg (by
    intro hc
    cases rest with
    | nil => simp at hc
    | cons r rs =>
      simp only [List.head?_cons, Option.some.injEq] at hc
      have := (notNumExt_head hrest r rfl).2
      rw [hc] at this
      simp at this)]
  rw [digitsVal_natDigits]

theorem parseNumCore_frac (neg : Bool) (ip fp e : ℕ) (he : 1 ≤ e)
    (hfp : fp < 10 ^ e) (rest : List Char) (hrest : notNumExt rest = true) :
    parseNumCore neg (natDigits ip ++ '.' :: (padDigits e fp ++ rest)) =
      some (.num (if neg then -((ip * 10 ^ e + fp : ℕ) : ℤ)
                  else ((ip * 10 ^ e + fp : ℕ) : ℤ)) e, rest) := by
  obtain ⟨ht, hd⟩ := takeWhile_append_all (·.isDigit) (natDigits ip)
    ('.' :: (padDigits e fp ++ rest)) (natDigits_all_digits ip)
    (fun c hc => by
      simp only [List.head?_cons, Option.some.injEq] at hc
      subst hc
      decide)
  obtain ⟨ht2, hd2⟩ := takeWhile_append_all (·.isDigit) (padDigits e fp) rest
    (padDigits_all_digits e fp) (fun c hc => (notNumExt_head hrest c hc).1)
  unfold parseNumCore
  rw [ht, hd, if_neg (by simp [natDigits_ne_nil ip])]
  simp only [List.head?_cons, List.tail_cons, if_pos]
  rw [ht2, hd2, if_neg (by
    simp only [List.isEmpty_iff]
    intro hc
    have := padDigits_length e fp he hfp
    rw [hc] at this
    simp at this
    omega), digitsVal_natDigits, digitsVal_padDigits,
    padDigits_length e fp he hfp]

theorem parseNumBody_numDumps (m : ℤ) (e : ℕ) (rest : List Char)
    (hrest : notNumExt rest = true) :
    parseNumBody (numDumps m e ++ rest) = some (.num m e, rest) := by
  by_cases he : e = 0
  · subst he
    rw [show numDumps m 0 = intDigits m from by unfold numDumps; rw [if_pos rfl]]
    by_cases hm : m < 0
    · rw [show intDigits m = '-' :: natDigits m.natAbs from by
        unfold intDigits; rw [if_pos hm]]
      unfold parseNumBody
      rw [List.cons_append]
      rw [if_pos (by simp), List.tail_cons, parseNumCore_int true _ _ hrest,
        if_pos rfl, show -((m.natAbs : ℕ) : ℤ) = m from by omega]
    · rw [show intDigits m = natDigits m.natAbs from by
        unfold intDigits; rw [if_neg hm]]
      obtain ⟨d, ds, hds⟩ := List.exists_cons_of_ne_nil (natDigits_ne_nil m.natAbs)
      have hdd : d.isDigit = true := by
        apply natDigits_all_digits m.natAbs
        rw [hds]
        exact List.mem_cons_self d ds
      unfold parseNumBody
      rw [if_neg (by
        rw [hds, List.cons_append]
        simp only [List.head?_cons, Option.some.injEq]
        intro hc
        rw [hc] at hdd
        exact absurd hdd (by decide))]
      rw [parseNumCore_int false _ _ hrest, if_neg (by decide),
        show ((m.natAbs : ℕ) : ℤ) = m from by omega]
  · have he1 : 1 ≤ e := by omega
    have hsplit : numDumps m e = (if m < 0 then ['-'] else []) ++
        natDigits (m.natAbs / 10 ^ e) ++
        '.' :: padDigits e (m.natAbs % 10 ^ e) := by
      unfold numDumps
      rw [if_neg he]
    have hval : (m.natAbs / 10 ^ e) * 10 ^ e + m.natAbs % 10 ^ e = m.natAbs :=
      Nat.div_add_mod' _ _
    by_cases hm : m < 0
    · rw [hsplit, if_pos hm]
      have harr : (['-'] ++ natDigits (m.natAbs / 10 ^ e) ++
          '.' :: padDigits e (m.natAbs % 10 ^ e)) ++ rest =
          '-' :: (natDigits (m.natAbs / 10 ^ e) ++
            '.' :: (padDigits e (m.natAbs % 10 ^ e) ++ rest)) := by simp
      rw [harr]
      unfold parseNumBody
      rw [if_pos (by simp), List.tail_cons,
        parseNumCore_frac true _ _ e he1 (Nat.mod_lt _ (by positivity)) rest
          hrest, if_pos rfl, hval,
        show -((m.natAbs : ℕ) : ℤ) = m from by omega]
    · rw [hsplit, if_neg hm]
      have harr : (([] : List Char) ++ natDigits (m.natAbs / 10 ^ e) ++
          '.' :: padDigits e (m.natAbs % 10 ^ e)) ++ rest =
          natDigits (m.natAbs / 10 ^ e) ++
            '.' :: (padDigits e (m.natAbs % 10 ^ e) ++ rest) := by simp
      rw [harr]
      obtain ⟨d, ds, hds⟩ :=
        List.exists_cons_of_ne_nil (natDigits_ne_nil (m.natAbs / 10 ^ e))
      have hdd : d.isDigit = true := by
        apply natDigits_all_digits (m.natAbs / 10 ^ e)
        rw [hds]
        exact List.mem_cons_self d ds
      unfold parseNumBody
      rw [if_neg (by
        rw [hds, List.cons_append]
        simp only [List.head?_cons, Option.some.injEq]
        intro hc
        rw [hc] at hdd
        exact absurd hdd (by decide))]
      rw [parseNumCore_frac false _ _ e he1 (Nat.mod_lt _ (by positivity)) rest
          hrest, if_neg (by decide), hval,
        show ((m.natAbs : ℕ) : ℤ) = m from by omega]

theorem plainChar_props {c : Char} (h : plainChar c = true) :
    c ≠ '"' ∧ c ≠ '\\' ∧ 32 ≤ c.toNat ∧ c ≠ '`' := by
  simpa [plainChar, not_lt, and_assoc] using h

theorem escapeChar_plain {c : Char} (h : plainChar c = true) :
    escapeChar c = [c] := by
  obtain ⟨h1, h2, h3, _⟩ := plainChar_props h
  unfold escapeChar
  rw [if_neg h1, if_neg h2,
    if_neg (fun hc => absurd (hc ▸ h3) (by decide)),
    if_neg (fun hc => absurd (hc ▸ h3) (by decide)),
    if_neg (fun hc => absurd (hc ▸ h3) (by decide))]

theorem flatMap_escape_plain {s : List Char}
    (h : ∀ c ∈ s, plainChar c = true) : s.flatMap escapeChar = s := by
  induction s with
  | nil => rfl
  | cons c s ih =>
    rw [List.flatMap_cons, escapeChar_plain (h c (List.mem_cons_self c s)),
      ih (fun b hb => h b (List.mem_cons_of_mem c hb))]
    rfl

theorem parseStringBody_plain (s rest : List Char)
    (h : ∀ c ∈ s, plainChar c = true) :
    parseStringBody (s ++ '"' :: rest) = some (s, rest) := by
  induction s with
  | nil =>
    rw [List.nil_append]
    unfold parseStringBody
    rw [if_pos rfl]
  | cons c s ih =>
    obtain ⟨h1, h2, h3, _⟩ := plainChar_props (h c (List.mem_cons_self c s))
    rw [List.cons_append]
    unfold parseStringBody
    rw [if_neg h1, if_neg h2, if_neg (by omega),
      ih (fun b hb => h b (List.mem_cons_of_mem c hb))]
    rfl

theorem digit_not_ws {c : Char} (h : c.isDigit = true) : isWsChar c = false := by
  by_contra hc
  have hc' : isWsChar c = true := by
    cases hcc : isWsChar c
    · exact absurd hcc hc
    · rfl
  have : ((c = ' ' ∨ c = '\t') ∨ c = '\n') ∨ c = '\r' := by
    simpa [isWsChar] using hc'
  rcases this with ((rfl | rfl) | rfl) | rfl <;> exact absurd h (by decide)

/-- A serialized number starts with a minus sign or a digit. -/
theorem numDumps_head (m : ℤ) (e : ℕ) :
    ∃ c cs, numDumps m e = c :: cs ∧ (c = '-' ∨ c.isDigit = true) := by
  unfold numDumps
  by_cases he : e = 0
  · rw [if_pos he]
    unfold intDigits
    by_cases hm : m < 0
    · rw [if_pos hm]
      exact ⟨'-', _, rfl, Or.inl rfl⟩
    · rw [if_neg hm]
      obtain ⟨d, ds, hds⟩ :=
        List.exists_cons_of_ne_nil (natDigits_ne_nil m.natAbs)
      refine ⟨d, ds, hds, Or.inr ?_⟩
      apply natDigits_all_digits m.natAbs
      rw [hds]
      exact List.mem_cons_self d ds
  · rw [if_neg he]
    by_cases hm : m < 0
    · rw [if_pos hm]
      exact ⟨'-', _, rfl, Or.inl rfl⟩
    · rw [if_neg hm]
      obtain ⟨d, ds, hds⟩ := List.exists_cons_of_ne_nil
        (natDigits_ne_nil (m.natAbs / 10 ^ e))
      have hd : d.isDigit = true := by
        apply natDigits_all_digits (m.natAbs / 10 ^ e)
        rw [hds]
        exact List.mem_cons_self d ds
      refine ⟨d, ds ++ '.' :: padDigits e (m.natAbs % 10 ^ e), ?_, Or.inr hd⟩
      rw [List.nil_append, hds]
      rfl

/-- Heads a serialized JSON value can start with. -/
theorem jsonDumps_head (o : Json) :
    ∃ c cs, jsonDumps o = c :: cs ∧
      (c = 'n' ∨ c = 't' ∨ c = 'f' ∨ c = '"' ∨ c = '[' ∨ c = '{' ∨
        c = '-' ∨ c.isDigit = true) := by
  cases o with
  | null => exact ⟨'n', _, rfl, by simp⟩
  | bool b => cases b
              · exact ⟨'f', _, rfl, by simp⟩
              · exact ⟨'t', _, rfl, by simp⟩
  | str s => exact ⟨'"', _, rfl, by simp⟩
  | arr items => exact ⟨'[', _, rfl, by simp⟩
  | obj fields => exact ⟨'{', _, rfl, by simp⟩
  | num m e =>
    obtain ⟨c, cs, hcs, hc⟩ := numDumps_head m e
    exact ⟨c, cs, hcs, by rcases hc with rfl | hd
                          · simp
                          · simp [hd]⟩

theorem isDigit_ne {c d : Char} (h : c.isDigit = true)
    (hd : d.isDigit = false) : c ≠ d := by
  intro hc
  rw [hc, hd] at h
  exact Bool.noConfusion h

/-- Any serialized value starts with a non-whitespace character that is
neither `]` nor the closing brace. -/
theorem jsonDumps_head_clean (o : Json) :
    ∃ c cs, jsonDumps o = c :: cs ∧ isWsChar c = false ∧
      c ≠ ']' ∧ c ≠ '}' := by
  obtain ⟨c, cs, hcs, hc⟩ := jsonDumps_head o
  refine ⟨c, cs, hcs, ?_, ?_, ?_⟩ <;>
    rcases hc with rfl | rfl | rfl | rfl | rfl | rfl | rfl | hd
  · decide
  · decide
  · decide
  · decide
  · decide
  · decide
  · decide
  · exact digit_not_ws hd
  · decide
  · decide
  · decide
  · decide
  · decide
  · decide
  · decide
  · exact isDigit_ne hd (by decide)
  · decide
  · decide
  · decide
  · decide
  · decide
  · decide
  · decide
  · exact isDigit_ne hd (by decide)

mutual

/-- A JSON tree all of whose string contents (and keys) are plain
characters: exactly the shape of the decision objects the schema asks
the model for, which serialize without escapes and without backticks. -/
def jsonPlain : Json → Bool
  | .null => true
  | .bool _ => true
  | .num _ _ => true
  | .str s => s.all plainChar
  | .arr items => arrPlain items
  | .obj fields => objPlain fields

def arrPlain : JArr → Bool
  | .nil => true
  | .cons v rest => jsonPlain v && arrPlain rest

def objPlain : JObj → Bool
  | .nil => true
  | .cons k v rest => k.all plainChar && jsonPlain v && objPlain rest

end

mutual

/-- Parser fuel sufficient for a value: one unit per nesting level. -/
def jsonFuel : Json → ℕ
  | .arr items => arrFuel items + 1
  | .obj fields => objFuel fields + 1
  | _ => 1

def arrFuel : JArr → ℕ
  | .nil => 1
  | .cons v rest => max (jsonFuel v) (arrFuel rest) + 1

def objFuel : JObj → ℕ
  | .nil => 1
  | .cons _ v rest => max (jsonFuel v) (objFuel rest) + 1

end

theorem jsonFuel_pos (v : Json) : 1 ≤ jsonFuel v := by
  cases v <;> simp [jsonFuel]

theorem arrFuel_pos (items : JArr) : 1 ≤ arrFuel items := by
  cases items <;> simp [arrFuel]

theorem objFuel_pos (fields : JObj) : 1 ≤ objFuel fields := by
  cases fields <;> simp [objFuel]

/-- Properties of a number head needed to route `parseVal` to the
number branch. -/
theorem numHead_props {c : Char} (h : c = '-' ∨ c.isDigit = true) :
    isWsChar c = false ∧ c ≠ 'n' ∧ c ≠ 't' ∧ c ≠ 'f' ∧ c ≠ '"' ∧
      c ≠ '[' ∧ c ≠ '{' := by
  rcases h with rfl | hd
  · decide
  · exact ⟨digit_not_ws hd, isDigit_ne hd (by decide), isDigit_ne hd (by decide),
      isDigit_ne hd (by decide), isDigit_ne hd (by decide),
      isDigit_ne hd (by decide), isDigit_ne hd (by decide)⟩

theorem arrDumps_cons_head (v : Json) (r : JArr) :
    ∃ c cs, arrDumps (.cons v r) = c :: cs ∧ isWsChar c = false ∧
      c ≠ ']' := by
  obtain ⟨c, cs, hcs, hws, hne, _⟩ := jsonDumps_head_clean v
  cases r with
  | nil => exact ⟨c, cs, hcs, hws, hne⟩
  | cons v2 r2 =>
    refine ⟨c, cs ++ ',' :: ' ' :: arrDumps (.cons v2 r2), ?_, hws, hne⟩
    show jsonDumps v ++ ',' :: ' ' :: arrDumps (.cons v2 r2) = _
    rw [hcs]
    rfl

theorem objDumps_cons_head (k : List Char) (v : Json) (r : JObj) :
    ∃ cs, objDumps (.cons k v r) = '"' :: cs := by
  cases r with
  | nil => exact ⟨_, rfl⟩
  | cons k2 v2 r2 => exact ⟨_, rfl⟩

theorem parseArrItems_ws (f : ℕ) (cs : List Char) :
    parseArrItems f (' ' :: cs) = parseArrItems f cs := by
  cases f with
  | zero => rfl
  | succ f =>
    simp only [parseArrItems]
    rw [parseVal_ws]

theorem notNumExt_bracket (rest : List Char) :
    notNumExt (']' :: rest) = true := rfl

theorem notNumExt_brace (rest : List Char) :
    notNumExt ('}' :: rest) = true := rfl

theorem notNumExt_comma (rest : List Char) :
    notNumExt (',' :: rest) = true := rfl

/-- Core of the round trip: given enough fuel, the `json.loads` parser
inverts `json.dumps` on every plain value, item list and member list,
leaving any trailing input (not extending a number) untouched. -/
theorem parse_dumps (f : ℕ) :
    (∀ v (rest : List Char), jsonPlain v = true → jsonFuel v ≤ f →
      notNumExt rest = true →
      parseVal f (jsonDumps v ++ rest) = some (v, rest)) ∧
    (∀ items (rest : List Char), items ≠ JArr.nil → arrPlain items = true →
      arrFuel items ≤ f →
      parseArrItems f (arrDumps items ++ ']' :: rest) = some (items, rest)) ∧
    (∀ fields (rest : List Char), fields ≠ JObj.nil → objPlain fields = true →
      objFuel fields ≤ f →
      parseObjFields f (objDumps fields ++ '}' :: rest) =
        some (fields, rest)) := by
  induction f with
  | zero =>
    refine ⟨?_, ?_, ?_⟩
    · intro v rest _ hf _
      have := jsonFuel_pos v
      omega
    · intro items rest _ _ hf
      have := arrFuel_pos items
      omega
    · intro fields rest _ _ hf
      have := objFuel_pos fields
      omega
  | succ g ih =>
    obtain ⟨ihv, iha, iho⟩ := ih
    refine ⟨?_, ?_, ?_⟩
    · intro v rest hv hf hrest
      cases v with
      | null =>
        show parseVal (g + 1) ('n' :: 'u' :: 'l' :: 'l' :: rest) =
          some (.null, rest)
        simp only [parseVal]
        rw [skipWs_cons_not_ws _ (by decide)]
        dsimp only
        rw [if_pos rfl, if_pos (by
          rw [List.isPrefixOf_iff_prefix]
          exact List.prefix_append ['u', 'l', 'l'] rest)]
        rfl
      | bool b =>
        cases b with
        | true =>
          show parseVal (g + 1) ('t' :: 'r' :: 'u' :: 'e' :: rest) =
            some (.bool true, rest)
          simp only [parseVal]
          rw [skipWs_cons_not_ws _ (by decide)]
          dsimp only
          rw [if_neg (by decide), if_pos rfl, if_pos (by
            rw [List.isPrefixOf_iff_prefix]
            exact List.prefix_append ['r', 'u', 'e'] rest)]
          rfl
        | false =>
          show parseVal (g + 1) ('f' :: 'a' :: 'l' :: 's' :: 'e' :: rest) =
            some (.bool false, rest)
          simp only [parseVal]
          rw [skipWs_cons_not_ws _ (by decide)]
          dsimp only
          rw [if_neg (by decide), if_neg (by decide), if_pos rfl, if_pos (by
            rw [List.isPrefixOf_iff_prefix]
            exact List.prefix_append ['a', 'l', 's', 'e'] rest)]
          rfl
      | num m e =>
        obtain ⟨c, cs, hcs, hc⟩ := numDumps_head m e
        obtain ⟨hws, hn, ht, hf2, hq, hbk, hbr⟩ := numHead_props hc
        show parseVal (g + 1) (numDumps m e ++ rest) = some (.num m e, rest)
        rw [hcs, List.cons_append]
        simp only [parseVal]
        rw [skipWs_cons_not_ws _ hws]
        dsimp only
        rw [if_neg hn, if_neg ht, if_neg hf2, if_neg hq, if_neg hbk,
          if_neg hbr, ← List.cons_append, ← hcs]
        exact parseNumBody_numDumps m e rest hrest
      | str s =>
        have hplain : ∀ c ∈ s, plainChar c = true := by
          simpa [jsonPlain] using hv
        show parseVal (g + 1) (('"' :: s.flatMap escapeChar ++ ['"']) ++ rest) =
          some (.str s, rest)
        rw [flatMap_escape_plain hplain]
        have harr : ('"' :: s ++ ['"']) ++ rest = '"' :: (s ++ '"' :: rest) := by
          simp
        rw [harr]
        simp only [parseVal]
        rw [skipWs_cons_not_ws _ (by decide)]
        dsimp only
        rw [if_neg (by decide), if_neg (by decide), if_neg (by decide),
          if_pos rfl, parseStringBody_plain s rest hplain]
        rfl
      | arr items =>
        cases items with
        | nil =>
          show parseVal (g + 1) ('[' :: ']' :: rest) = some (.arr .nil, rest)
          simp only [parseVal]
          rw [skipWs_cons_not_ws _ (by decide)]
          dsimp only
          rw [if_neg (by decide), if_neg (by decide), if_neg (by decide),
            if_neg (by decide), if_pos rfl, skipWs_cons_not_ws _ (by decide)]
          simp only [List.head?_cons]
          rw [if_pos trivial]
          rfl
        | cons v r =>
          obtain ⟨c, cs, hcs, hws, hne⟩ := arrDumps_cons_head v r
          have harr : jsonDumps (.arr (.cons v r)) ++ rest =
              '[' :: (arrDumps (.cons v r) ++ ']' :: rest) := by
            show ('[' :: arrDumps (.cons v r) ++ [']']) ++ rest = _
            simp
          rw [harr]
          simp only [parseVal]
          rw [skipWs_cons_not_ws _ (by decide)]
          dsimp only
          rw [if_neg (by decide), if_neg (by decide), if_neg (by decide),
            if_neg (by decide), if_pos rfl, hcs, List.cons_append,
            skipWs_cons_not_ws _ hws]
          simp only [List.head?_cons]
          rw [if_neg (fun hcc => hne (Option.some.inj hcc)),
            ← List.cons_append, ← hcs]
          rw [iha (.cons v r) rest (by simp) (by simpa [jsonPlain] using hv)
            (by have h := hf; simp only [jsonFuel] at h; omega)]
          rfl
      | obj fields =>
        cases fields with
        | nil =>
          show parseVal (g + 1) ('{' :: '}' :: rest) = some (.obj .nil, rest)
          simp only [parseVal]
          rw [skipWs_cons_not_ws _ (by decide)]
          dsimp only
          rw [if_neg (by decide), if_neg (by decide), if_neg (by decide),
            if_neg (by decide), if_neg (by decide), if_pos rfl,
            skipWs_cons_not_ws _ (by decide)]
          simp only [List.head?_cons]
          rw [if_pos trivial]
          rfl
        | cons k v r =>
          obtain ⟨cs, hcs⟩ := objDumps_cons_head k v r
          have harr : jsonDumps (.obj (.cons k v r)) ++ rest =
              '{' :: (objDumps (.cons k v r) ++ '}' :: rest) := by
            show ('{' :: objDumps (.cons k v r) ++ ['}']) ++ rest = _
            simp
          rw [harr]
          simp only [parseVal]
          rw [skipWs_cons_not_ws _ (by decide)]
          dsimp only
          rw [if_neg (by decide), if_neg (by decide), if_neg (by decide),
            if_neg (by decide), if_neg (by decide), if_pos rfl, hcs,
            List.cons_append, skipWs_cons_not_ws _ (by decide)]
          simp only [List.head?_cons]
          rw [if_neg (fun hcc => absurd (Option.some.inj hcc) (by decide)),
            ← List.cons_append, ← hcs]
          rw [iho (.cons k v r) rest (by simp) (by simpa [jsonPlain] using hv)
            (by have h := hf; simp only [jsonFuel] at h; omega)]
          rfl
    · intro items rest hne hp hf
      cases items with
      | nil => exact absurd rfl hne
      | cons v r =>
        have hp2 : jsonPlain v = true ∧ arrPlain r = true := by
          simpa [arrPlain] using hp
        have hm : max (jsonFuel v) (arrFuel r) + 1 ≤ g + 1 := by
          simpa [arrFuel] using hf
        have hfv : jsonFuel v ≤ g :=
          le_trans (le_max_left (jsonFuel v) (arrFuel r)) (by omega)
        have hfr : arrFuel r ≤ g :=
          le_trans (le_max_right (jsonFuel v) (arrFuel r)) (by omega)
        cases r with
        | nil =>
          show parseArrItems (g + 1) (jsonDumps v ++ ']' :: rest) =
            some (.cons v .nil, rest)
          simp only [parseArrItems]
          rw [ihv v (']' :: rest) hp2.1 hfv (notNumExt_bracket rest)]
          dsimp only
          rw [skipWs_cons_not_ws _ (by decide)]
          dsimp only
          rw [if_neg (by decide), if_pos rfl]
        | cons v2 r2 =>
          have harr : arrDumps (.cons v (.cons v2 r2)) ++ ']' :: rest =
              jsonDumps v ++
                ',' :: ' ' :: (arrDumps (.cons v2 r2) ++ ']' :: rest) := by
            show (jsonDumps v ++ ',' :: ' ' :: arrDumps (.cons v2 r2)) ++
              ']' :: rest = _
            simp
          rw [harr]
          simp only [parseArrItems]
          rw [ihv v (',' :: ' ' :: (arrDumps (.cons v2 r2) ++ ']' :: rest))
            hp2.1 hfv (notNumExt_comma _)]
          dsimp only
          rw [skipWs_cons_not_ws _ (by decide)]
          dsimp only
          rw [if_pos rfl, parseArrItems_ws,
            iha (.cons v2 r2) rest (by simp) hp2.2 hfr]
          rfl
    · intro fields rest hne hp hf
      cases fields with
      | nil => exact absurd rfl hne
      | cons k v r =>
        have hp2 : (∀ c ∈ k, plainChar c = true) ∧ jsonPlain v = true ∧
            objPlain r = true := by
          simpa [objPlain, and_assoc] using hp
        obtain ⟨hpk, hpv, hpr⟩ := hp2
        have hm : max (jsonFuel v) (objFuel r) + 1 ≤ g + 1 := by
          simpa [objFuel] using hf
        have hfv : jsonFuel v ≤ g :=
          le_trans (le_max_left (jsonFuel v) (objFuel r)) (by omega)
        have hfr : objFuel r ≤ g :=
          le_trans (le_max_right (jsonFuel v) (objFuel r)) (by omega)
        cases r with
        | nil =>
          have harr : objDumps (.cons k v .nil) ++ '}' :: rest =
              '"' :: (k.flatMap escapeChar ++
                '"' :: ':' :: ' ' :: (jsonDumps v ++ '}' :: rest)) := by
            show ('"' :: k.flatMap escapeChar ++
              '"' :: ':' :: ' ' :: jsonDumps v) ++ '}' :: rest = _
            simp
          rw [harr, flatMap_escape_plain hpk]
          simp only [parseObjFields]
          rw [skipWs_cons_not_ws _ (by decide)]
          dsimp only
          rw [if_pos rfl, parseStringBody_plain k _ hpk]
          dsimp only
          rw [skipWs_cons_not_ws _ (by decide)]
          dsimp only
          rw [if_pos rfl, parseVal_ws,
            ihv v ('}' :: rest) hpv hfv (notNumExt_brace rest)]
          dsimp only
          rw [skipWs_cons_not_ws _ (by decide)]
          dsimp only
          rw [if_neg (by decide), if_pos rfl]
        | cons k2 v2 r2 =>
          have harr : objDumps (.cons k v (.cons k2 v2 r2)) ++ '}' :: rest =
              '"' :: (k.flatMap escapeChar ++
                '"' :: ':' :: ' ' :: (jsonDumps v ++
                  ',' :: ' ' :: (objDumps (.cons k2 v2 r2) ++
                    '}' :: rest))) := by
            show ('"' :: k.flatMap escapeChar ++
              '"' :: ':' :: ' ' :: jsonDumps v ++
                ',' :: ' ' :: objDumps (.cons k2 v2 r2)) ++ '}' :: rest = _
            simp
          rw [harr, flatMap_escape_plain hpk]
          simp only [parseObjFields]
          rw [skipWs_cons_not_ws _ (by decide)]
          dsimp only
          rw [if_pos rfl, parseStringBody_plain k _ hpk]
          dsimp only
          rw [skipWs_cons_not_ws _ (by decide)]
          dsimp only
          rw [if_pos rfl, parseVal_ws,
            ihv v (',' :: ' ' :: (objDumps (.cons k2 v2 r2) ++ '}' :: rest))
              hpv hfv (notNumExt_comma _)]
          dsimp only
          rw [skipWs_cons_not_ws _ (by decide)]
          dsimp only
          rw [if_pos rfl, parseObjFields_ws,
            iho (.cons k2 v2 r2) rest (by simp) hpr hfr]
          rfl

mutual

/-- The nesting depth of a value is bounded by its serialized length. -/
theorem jsonFuel_le_len (v : Json) : jsonFuel v ≤ (jsonDumps v).length + 1 := by
  cases v with
  | null => show (1 : ℕ) ≤ _ + 1; omega
  | bool b => show (1 : ℕ) ≤ _ + 1; omega
  | num m e => show (1 : ℕ) ≤ _ + 1; omega
  | str s => show (1 : ℕ) ≤ _ + 1; omega
  | arr items =>
    have h := arrFuel_le_len items
    show arrFuel items + 1 ≤ ('[' :: arrDumps items ++ [']']).length + 1
    simp only [List.cons_append, List.length_cons, List.length_append,
      List.length_singleton]
    omega
  | obj fields =>
    have h := objFuel_le_len fields
    show objFuel fields + 1 ≤ ('{' :: objDumps fields ++ ['}']).length + 1
    simp only [List.cons_append, List.length_cons, List.length_append,
      List.length_singleton]
    omega

theorem arrFuel_le_len (items : JArr) :
    arrFuel items ≤ (arrDumps items).length + 2 := by
  cases items with
  | nil => show (1 : ℕ) ≤ _ + 2; omega
  | cons v r =>
    have h1 := jsonFuel_le_len v
    have h2 := arrFuel_le_len r
    have h3 : max (jsonFuel v) (arrFuel r) ≤
        (jsonDumps v).length + (arrDumps r).length + 2 :=
      max_le (by omega) (by omega)
    cases r with
    | nil =>
      show max (jsonFuel v) (arrFuel JArr.nil) + 1 ≤ (jsonDumps v).length + 2
      have h4 : max (jsonFuel v) (arrFuel JArr.nil) ≤ (jsonDumps v).length + 1 :=
        max_le h1 (by show (1 : ℕ) ≤ _; omega)
      omega
    | cons v2 r2 =>
      show max (jsonFuel v) (arrFuel (JArr.cons v2 r2)) + 1 ≤
        (jsonDumps v ++ ',' :: ' ' :: arrDumps (JArr.cons v2 r2)).length + 2
      simp only [List.length_append, List.length_cons]
      omega

theorem objFuel_le_len (fields : JObj) :
    objFuel fields ≤ (objDumps fields).length + 2 := by
  cases fields with
  | nil => show (1 : ℕ) ≤ _ + 2; omega
  | cons k v r =>
    have h1 := jsonFuel_le_len v
    have h2 := objFuel_le_len r
    cases r with
    | nil =>
      show max (jsonFuel v) (objFuel JObj.nil) + 1 ≤
        ('"' :: k.flatMap escapeChar ++
          '"' :: ':' :: ' ' :: jsonDumps v).length + 2
      have h4 : max (jsonFuel v) (objFuel JObj.nil) ≤ (jsonDumps v).length + 1 :=
        max_le h1 (by show (1 : ℕ) ≤ _; omega)
      simp only [List.cons_append, List.length_cons, List.length_append]
      omega
    | cons k2 v2 r2 =>
      show max (jsonFuel v) (objFuel (JObj.cons k2 v2 r2)) + 1 ≤
        ('"' :: k.flatMap escapeChar ++ '"' :: ':' :: ' ' :: jsonDumps v ++
          ',' :: ' ' :: objDumps (JObj.cons k2 v2 r2)).length + 2
      have h3 : max (jsonFuel v) (objFuel (JObj.cons k2 v2 r2)) ≤
          (jsonDumps v).length + (objDumps (JObj.cons k2 v2 r2)).length + 2 :=
        max_le (by omega) (by omega)
      simp only [List.cons_append, List.length_cons, List.length_append]
      omega

end

/-- `json.loads` inverts `json.dumps` on every plain value. -/
theorem jsonLoads_dumps (v : Json) (hv : jsonPlain v = true) :
    jsonLoads (jsonDumps v) = some v := by
  unfold jsonLoads
  have h := (parse_dumps ((jsonDumps v).length + 1)).1 v [] hv
    (by have := jsonFuel_le_len v; omega) rfl
  rw [List.append_nil] at h
  rw [h]
  rfl

theorem natDigits_no_tick (n : ℕ) : '`' ∉ natDigits n := by
  intro h
  exact absurd (natDigits_all_digits n '`' h) (by decide)

theorem padDigits_no_tick (e m : ℕ) : '`' ∉ padDigits e m := by
  intro h
  exact absurd (padDigits_all_digits e m '`' h) (by decide)

theorem numDumps_no_tick (m : ℤ) (e : ℕ) : '`' ∉ numDumps m e := by
  intro h
  unfold numDumps at h
  by_cases he : e = 0
  · rw [if_pos he] at h
    unfold intDigits at h
    by_cases hm : m < 0
    · rw [if_pos hm] at h
      rcases List.mem_cons.mp h with h | h
      · exact absurd h (by decide)
      · exact natDigits_no_tick _ h
    · rw [if_neg hm] at h
      exact natDigits_no_tick _ h
  · rw [if_neg he] at h
    rcases List.mem_append.mp h with h | h
    · rcases List.mem_append.mp h with h | h
      · by_cases hm : m < 0
        · rw [if_pos hm] at h
          exact absurd (List.mem_singleton.mp h) (by decide)
        · rw [if_neg hm] at h
          simp at h
      · exact natDigits_no_tick _ h
    · rcases List.mem_cons.mp h with h | h
      · exact absurd h (by decide)
      · exact padDigits_no_tick _ _ h

mutual

/-- Serializing a plain value emits no backtick, so a fenced block
holding it closes at the intended fence. -/
theorem jsonDumps_no_tick (v : Json) (hv : jsonPlain v = true) :
    '`' ∉ jsonDumps v := by
  intro h
  cases v with
  | null => exact absurd h (by decide)
  | bool b => cases b
              · exact absurd h (by decide)
              · exact absurd h (by decide)
  | num m e => exact numDumps_no_tick m e h
  | str s =>
    have hplain : ∀ c ∈ s, plainChar c = true := by
      simpa [jsonPlain] using hv
    rw [show jsonDumps (.str s) = '"' :: s.flatMap escapeChar ++ ['"'] from rfl,
      flatMap_escape_plain hplain] at h
    rcases List.mem_cons.mp h with h | h
    · exact absurd h (by decide)
    rcases List.mem_append.mp h with h | h
    · exact absurd (plainChar_props (hplain _ h)).2.2.2 (by simp)
    · exact absurd (List.mem_singleton.mp h) (by decide)
  | arr items =>
    rw [show jsonDumps (.arr items) = '[' :: arrDumps items ++ [']'] from
      rfl] at h
    rcases List.mem_cons.mp h with h | h
    · exact absurd h (by decide)
    rcases List.mem_append.mp h with h | h
    · exact arrDumps_no_tick items (by simpa [jsonPlain] using hv) h
    · exact absurd (List.mem_singleton.mp h) (by decide)
  | obj fields =>
    rw [show jsonDumps (.obj fields) = '{' :: objDumps fields ++ ['}'] from
      rfl] at h
    rcases List.mem_cons.mp h with h | h
    · exact absurd h (by decide)
    rcases List.mem_append.mp h with h | h
    · exact objDumps_no_tick fields (by simpa [jsonPlain] using hv) h
    · exact absurd (List.mem_singleton.mp h) (by decide)

theorem arrDumps_no_tick (items : JArr) (hp : arrPlain items = true) :
    '`' ∉ arrDumps items := by
  intro h
  cases items with
  | nil => exact absurd h (by decide)
  | cons v r =>
    have hp2 : jsonPlain v = true ∧ arrPlain r = true := by
      simpa [arrPlain] using hp
    cases r with
    | nil =>
      exact jsonDumps_no_tick v hp2.1 h
    | cons v2 r2 =>
      rw [show arrDumps (.cons v (.cons v2 r2)) =
        jsonDumps v ++ ',' :: ' ' :: arrDumps (.cons v2 r2) from rfl] at h
      rcases List.mem_append.mp h with h | h
      · exact jsonDumps_no_tick v hp2.1 h
      rcases List.mem_cons.mp h with h | h
      · exact absurd h (by decide)
      rcases List.mem_cons.mp h with h | h
      · exact absurd h (by decide)
      · exact arrDumps_no_tick (.cons v2 r2) hp2.2 h

theorem objDumps_no_tick (fields : JObj) (hp : objPlain fields = true) :
    '`' ∉ objDumps fields := by
  intro h
  cases fields with
  | nil => exact absurd h (by decide)
  | cons k v r =>
    have hp2 : (∀ c ∈ k, plainChar c = true) ∧ jsonPlain v = true ∧
        objPlain r = true := by
      simpa [objPlain, and_assoc] using hp
    obtain ⟨hpk, hpv, hpr⟩ := hp2
    cases r with
    | nil =>
      rw [show objDumps (.cons k v .nil) =
        '"' :: k.flatMap escapeChar ++ '"' :: ':' :: ' ' :: jsonDumps v from
          rfl, flatMap_escape_plain hpk] at h
      rcases List.mem_cons.mp h with h | h
      · exact absurd h (by decide)
      rcases List.mem_append.mp h with h | h
      · exact absurd (plainChar_props (hpk _ h)).2.2.2 (by simp)
      rcases List.mem_cons.mp h with h | h
      · exact absurd h (by decide)
      rcases List.mem_cons.mp h with h | h
      · exact absurd h (by decide)
      rcases List.mem_cons.mp h with h | h
      · exact absurd h (by decide)
      · exact jsonDumps_no_tick v hpv h
    | cons k2 v2 r2 =>
      rw [show objDumps (.cons k v (.cons k2 v2 r2)) =
        '"' :: k.flatMap escapeChar ++ '"' :: ':' :: ' ' :: jsonDumps v ++
          ',' :: ' ' :: objDumps (.cons k2 v2 r2) from rfl,
        flatMap_escape_plain hpk] at h
      rcases List.mem_cons.mp h with h | h
      · exact absurd h (by decide)
      rcases List.mem_append.mp h with h | h
      · rcases List.mem_append.mp h with h | h
        · exact absurd (plainChar_props (hpk _ h)).2.2.2 (by simp)
        rcases List.mem_cons.mp h with h | h
        · exact absurd h (by decide)
        rcases List.mem_cons.mp h with h | h
        · exact absurd h (by decide)
        rcases List.mem_cons.mp h with h | h
        · exact absurd h (by decide)
        · exact jsonDumps_no_tick v hpv h
      · rcases List.mem_cons.mp h with h | h
        · exact absurd h (by decide)
        rcases List.mem_cons.mp h with h | h
        · exact absurd h (by decide)
        · exact objDumps_no_tick (.cons k2 v2 r2) hpr h

end

/-- Stripping a newline-wrapped body whose first and last characters are
not Python whitespace returns the body. -/
theorem stripChars_wrap (D T S : List Char) (c d : Char)
    (hc : isPyWs c = false) (hd : isPyWs d = false)
    (hD1 : D = c :: T) (hD2 : D = S ++ [d]) :
    stripChars ('\n' :: D ++ ['\n']) = D := by
  have h1 : ('\n' :: D ++ ['\n']).dropWhile isPyWs = D ++ ['\n'] := by
    show (('\n' : Char) :: (D ++ ['\n'])).dropWhile isPyWs = D ++ ['\n']
    rw [List.dropWhile_cons, if_pos (by decide), hD1, List.cons_append,
      List.dropWhile_cons, if_neg (by simp [hc])]
  have h2 : (D ++ ['\n']).reverse.dropWhile isPyWs = D.reverse := by
    rw [List.reverse_append]
    show (('\n' : Char) :: D.reverse).dropWhile isPyWs = D.reverse
    rw [List.dropWhile_cons, if_pos (by decide), hD2, List.reverse_append]
    show (d :: S.reverse).dropWhile isPyWs = d :: S.reverse
    rw [List.dropWhile_cons, if_neg (by simp [hd])]
  unfold stripChars
  rw [h1, h2, List.reverse_reverse]

/-- C5 (corrected): serializing a decision object — an object all of
whose keys and string values are plain characters, as the schema's
decision objects are — as a `` ```json `` fenced block and running the
extractor followed by `json.loads` recovers a deep-equal object,
PROVIDED the prose before the block contains no backtick; the original
claim's "arbitrary surrounding prose" fails, since prose showing an
earlier fence diverts the extractor. -/
theorem extraction_round_trip (pre post : List Char) (fields : JObj)
    (hpre : '`' ∉ pre) (hplain : objPlain fields = true) :
    extract_then_parse (pre ++ jsonTag ++
        ('\n' :: jsonDumps (.obj fields) ++ ['\n']) ++ fence3 ++ post) =
      .ok (.obj fields) := by
  unfold extract_then_parse
  rw [extract_json_fenced pre ('\n' :: jsonDumps (.obj fields) ++ ['\n']) post
    hpre (by
      intro h
      rcases List.mem_cons.mp h with h | h
      · exact absurd h (by decide)
      rcases List.mem_append.mp h with h | h
      · exact jsonDumps_no_tick _ (by simpa [jsonPlain] using hplain) h
      · exact absurd (List.mem_singleton.mp h) (by decide))]
  dsimp only
  rw [stripChars_wrap (jsonDumps (.obj fields)) (objDumps fields ++ ['}'])
    ('{' :: objDumps fields) '{' '}' (by decide) (by decide) rfl rfl,
    jsonLoads_dumps _ (by simpa [jsonPlain] using hplain)]

/-- The decision object of the C5 counterexample. -/
def c5_fields : JObj := .cons "riskScore".data (.num 72 0) .nil

def c5_obj : Json := .obj c5_fields

/-- A response whose prose already shows an (empty) fenced block tagged
json before the decision block — perfectly ordinary model output. -/
def c5_bad_response : List Char :=
  "Example: ".data ++ jsonTag ++ "\n".data ++ fence3 ++ " Answer: ".data ++
    jsonTag ++ ('\n' :: jsonDumps c5_obj ++ ['\n']) ++ fence3

/-- C5 counterexample: with arbitrary prose around the fenced decision
block the extractor grabs the earlier fenced block and the round trip
fails — the pipeline does not recover the embedded object. -/
theorem extraction_round_trip_cex :
    extract_then_parse c5_bad_response ≠ .ok c5_obj := by decide

def c5w_fields : JObj :=
  .cons "riskScore".data (.num 72 0)
    (.cons "recommendedAction".data (.str "SCHEDULE_MAINTENANCE".data) .nil)

/-- C5 witness: a two-field decision object fenced inside backtick-free
prose makes the round trip. -/
theorem extraction_round_trip_witness :
    extract_then_parse ("The plan: ".data ++ jsonTag ++
        ('\n' :: jsonDumps (.obj c5w_fields) ++ ['\n']) ++ fence3 ++
        " Done.".data) = .ok (.obj c5w_fields) :=
  extraction_round_trip "The plan: ".data " Done.".data c5w_fields
    (by decide) (by decide)

/-!
## Claim theorems: C1 (schema validation after parsing)
-/

theorem exceptBind_ok {ε α β : Type} (a : α) (f : α → Except ε β) :
    (Except.ok (ε := ε) a >>= f) = f a := rfl

theorem exceptPure {ε α : Type} (a : α) :
    (pure a : Except ε α) = Except.ok a := rfl

/-- The `maintenanceWindow` sub-object of a reasoning response. -/
def mwData (wid : Json) (stS etS : List Char) (impact avail : Json) : JObj :=
  .cons "id".data wid (.cons "startTime".data (.str stS)
    (.cons "endTime".data (.str etS) (.cons "productionImpact".data impact
      (.cons "isAvailable".data avail .nil))))

/-- A reasoning response object with every schema field present; the
decision values are arbitrary JSON, exactly as the model may emit them. -/
def c1data (sdS stS etS : List Char)
    (wid impact avail rs pf ra rsn : Json) : Json :=
  .obj (.cons "scheduledDate".data (.str sdS)
    (.cons "maintenanceWindow".data (.obj (mwData wid stS etS impact avail))
      (.cons "riskScore".data rs (.cons "predictedFailureProbability".data pf
        (.cons "recommendedAction".data ra
          (.cons "reasoning".data rsn .nil))))))

/-- C1 (corrected): `predict_schedule` performs NO schema validation on
the parsed object — whenever every schema key is present and the three
timestamp strings parse, the decision fields (risk score, failure
probability, recommended action, ...) are copied verbatim into the
returned schedule, whatever their values; no range, type or enumeration
check exists and no SchemaValidationError is ever raised. -/
theorem predict_schedule_no_validation (wo : WorkOrder)
    (sdS stS etS : List Char) (sd st et : PyDateTime)
    (wid impact avail rs pf ra rsn : Json)
    (hsd : fromisoformat (replaceZ sdS) = some sd)
    (hst : fromisoformat (replaceZ stS) = some st)
    (het : fromisoformat (replaceZ etS) = some et) :
    predict_schedule_build wo
        (c1data sdS stS etS wid impact avail rs pf ra rsn) =
      .ok { workOrderId := wo.id, machineId := wo.machineId,
            scheduledDate := sd, windowId := wid, windowStartTime := st,
            windowEndTime := et, productionImpact := impact,
            isAvailable := avail, riskScore := rs,
            predictedFailureProbability := pf, recommendedAction := ra,
            reasoning := rsn } := by
  have h1 : fromisoformatE (replaceZ sdS) = .ok sd := by
    unfold fromisoformatE
    rw [hsd]
  have h2 : fromisoformatE (replaceZ stS) = .ok st := by
    unfold fromisoformatE
    rw [hst]
  have h3 : fromisoformatE (replaceZ etS) = .ok et := by
    unfold fromisoformatE
    rw [het]
  unfold predict_schedule_build c1data mwData
  simp +decide only [jsonItem, jsonItemFields, reduceIte, asPyStr, h1, h2, h3,
    exceptBind_ok, exceptPure]

def c1_wo : WorkOrder :=
  { id := "wo-001", machineId := "MACHINE-001",
    faultType := "Hydraulic Pressure Drop", priority := "High",
    assignedTechnician := "", requiredParts := [], estimatedDuration := 180,
    createdAt := none, status := "Scheduled" }

/-- A parsed response carrying exactly the violations the spec says must
be rejected: riskScore 150, probability 1.5, action "MAYBE". -/
def c1_bad : Json :=
  c1data "2026-01-03T22:00:00Z".data "2026-01-03T22:00:00Z".data
    "2026-01-04T06:00:00Z".data (.str "mw-001".data) (.str "Low".data)
    (.bool true) (.num 150 0) (.num 15 1) (.str "MAYBE".data)
    (.str "because".data)

/-- C1 counterexample: riskScore = 150, predictedFailureProbability = 1.5
and recommendedAction = "MAYBE" are accepted — the build returns a
complete decision object carrying the violating values instead of
raising any SchemaValidationError. -/
theorem predict_schedule_no_validation_cex :
    (predict_schedule_build c1_wo c1_bad).map
        (fun s => (s.riskScore, s.predictedFailureProbability,
          s.recommendedAction)) =
      .ok (.num 150 0, .num 15 1, .str "MAYBE".data) := by decide

/-- C1 witness: the no-validation characterization applied at the
violating values. -/
theorem predict_schedule_no_validation_witness :
    predict_schedule_build c1_wo c1_bad =
      .ok { workOrderId := c1_wo.id, machineId := c1_wo.machineId,
            scheduledDate := ⟨civilSecs 2026 1 3 22 0, some 0⟩,
            windowId := .str "mw-001".data,
            windowStartTime := ⟨civilSecs 2026 1 3 22 0, some 0⟩,
            windowEndTime := ⟨civilSecs 2026 1 4 6 0, some 0⟩,
            productionImpact := .str "Low".data, isAvailable := .bool true,
            riskScore := .num 150 0, predictedFailureProbability := .num 15 1,
            recommendedAction := .str "MAYBE".data,
            reasoning := .str "because".data } :=
  predict_schedule_no_validation c1_wo "2026-01-03T22:00:00Z".data
    "2026-01-03T22:00:00Z".data "2026-01-04T06:00:00Z".data
    ⟨civilSecs 2026 1 3 22 0, some 0⟩ ⟨civilSecs 2026 1 3 22 0, some 0⟩
    ⟨civilSecs 2026 1 4 6 0, some 0⟩ (.str "mw-001".data) (.str "Low".data)
    (.bool true) (.num 150 0) (.num 15 1) (.str "MAYBE".data)
    (.str "because".data) (by decide) (by decide) (by decide)

end FactoryHack
